import Mathlib

set_option maxHeartbeats 1000000
set_option maxRecDepth 8000

/-!
# Verification of the `rust-url` percent-encoding codec and URL parser core

Shallow embedding of `src/percent_encoding/src/lib.rs` and `src/url/src/parser.rs`.
Bytes are modelled as `Nat` (always `< 256` where it matters), byte strings as
`List Nat`, Rust `&str`/`String` as `List Char`.
-/

namespace RustUrl

/-! ## AsciiSet

Modelled from the spec: the `ascii_set` module of the `percent_encoding` crate is not under
`src/`.  Spec §3: an `AsciiSet` is a 128-bit bitmap over the ASCII range with `contains`,
`add`, `remove`; predefined `EMPTY`, `CONTROLS` (0x00..=0x1F and 0x7F), `NON_ALPHANUMERIC`
(everything except `A-Za-z0-9`); "should percent-encode b" means `b ≥ 0x80 OR contains(b)`. -/
structure AsciiSet where
  mask : Nat
deriving DecidableEq

/-- Modelled from the spec: bitmap membership test of `AsciiSet::contains`. -/
def AsciiSet.contains (s : AsciiSet) (b : Nat) : Bool :=
  s.mask.testBit b

/-- Modelled from the spec: `AsciiSet::add` returns a new set with the byte's bit set. -/
def AsciiSet.add (s : AsciiSet) (b : Nat) : AsciiSet :=
  ⟨s.mask ||| 2 ^ b⟩

/-- Modelled from the spec: `AsciiSet::remove` clears the byte's bit. -/
def AsciiSet.remove (s : AsciiSet) (b : Nat) : AsciiSet :=
  ⟨s.mask - (s.mask &&& 2 ^ b)⟩

/-- Modelled from the spec: a byte is percent-encoded iff it is non-ASCII or in the set. -/
def AsciiSet.shouldPercentEncode (s : AsciiSet) (b : Nat) : Bool :=
  128 ≤ b || s.contains b

/-- Modelled from the spec: `AsciiSet::EMPTY`. -/
def EMPTY : AsciiSet := ⟨0⟩

/-- Modelled from the spec: `CONTROLS` holds 0x00..=0x1F and 0x7F. -/
def CONTROLS : AsciiSet := ⟨(2 ^ 32 - 1) ||| 2 ^ 127⟩

/-- Modelled from the spec: `NON_ALPHANUMERIC` holds every ASCII byte except `A-Za-z0-9`. -/
def NON_ALPHANUMERIC : AsciiSet :=
  ⟨(List.range 128).foldl
    (fun m b =>
      if (48 ≤ b ∧ b ≤ 57) ∨ (65 ≤ b ∧ b ≤ 90) ∨ (97 ≤ b ∧ b ≤ 122) then m else m ||| 2 ^ b)
    0⟩

/-! ## `percent_encode_byte` and its 768-byte table (`lib.rs` lines 72-97) -/

/-- The `ENC_TABLE` static of `percent_encode_byte`, as the list of its byte values:
the concatenation of `"%00"`, `"%01"`, …, `"%FF"`. -/
def ENC_TABLE : List Nat := [
  37, 48, 48, 37, 48, 49, 37, 48, 50, 37, 48, 51, 37, 48, 52, 37, 48, 53, 37, 48, 54, 37, 48, 55,
  37, 48, 56, 37, 48, 57, 37, 48, 65, 37, 48, 66, 37, 48, 67, 37, 48, 68, 37, 48, 69, 37, 48, 70,
  37, 49, 48, 37, 49, 49, 37, 49, 50, 37, 49, 51, 37, 49, 52, 37, 49, 53, 37, 49, 54, 37, 49, 55,
  37, 49, 56, 37, 49, 57, 37, 49, 65, 37, 49, 66, 37, 49, 67, 37, 49, 68, 37, 49, 69, 37, 49, 70,
  37, 50, 48, 37, 50, 49, 37, 50, 50, 37, 50, 51, 37, 50, 52, 37, 50, 53, 37, 50, 54, 37, 50, 55,
  37, 50, 56, 37, 50, 57, 37, 50, 65, 37, 50, 66, 37, 50, 67, 37, 50, 68, 37, 50, 69, 37, 50, 70,
  37, 51, 48, 37, 51, 49, 37, 51, 50, 37, 51, 51, 37, 51, 52, 37, 51, 53, 37, 51, 54, 37, 51, 55,
  37, 51, 56, 37, 51, 57, 37, 51, 65, 37, 51, 66, 37, 51, 67, 37, 51, 68, 37, 51, 69, 37, 51, 70,
  37, 52, 48, 37, 52, 49, 37, 52, 50, 37, 52, 51, 37, 52, 52, 37, 52, 53, 37, 52, 54, 37, 52, 55,
  37, 52, 56, 37, 52, 57, 37, 52, 65, 37, 52, 66, 37, 52, 67, 37, 52, 68, 37, 52, 69, 37, 52, 70,
  37, 53, 48, 37, 53, 49, 37, 53, 50, 37, 53, 51, 37, 53, 52, 37, 53, 53, 37, 53, 54, 37, 53, 55,
  37, 53, 56, 37, 53, 57, 37, 53, 65, 37, 53, 66, 37, 53, 67, 37, 53, 68, 37, 53, 69, 37, 53, 70,
  37, 54, 48, 37, 54, 49, 37, 54, 50, 37, 54, 51, 37, 54, 52, 37, 54, 53, 37, 54, 54, 37, 54, 55,
  37, 54, 56, 37, 54, 57, 37, 54, 65, 37, 54, 66, 37, 54, 67, 37, 54, 68, 37, 54, 69, 37, 54, 70,
  37, 55, 48, 37, 55, 49, 37, 55, 50, 37, 55, 51, 37, 55, 52, 37, 55, 53, 37, 55, 54, 37, 55, 55,
  37, 55, 56, 37, 55, 57, 37, 55, 65, 37, 55, 66, 37, 55, 67, 37, 55, 68, 37, 55, 69, 37, 55, 70,
  37, 56, 48, 37, 56, 49, 37, 56, 50, 37, 56, 51, 37, 56, 52, 37, 56, 53, 37, 56, 54, 37, 56, 55,
  37, 56, 56, 37, 56, 57, 37, 56, 65, 37, 56, 66, 37, 56, 67, 37, 56, 68, 37, 56, 69, 37, 56, 70,
  37, 57, 48, 37, 57, 49, 37, 57, 50, 37, 57, 51, 37, 57, 52, 37, 57, 53, 37, 57, 54, 37, 57, 55,
  37, 57, 56, 37, 57, 57, 37, 57, 65, 37, 57, 66, 37, 57, 67, 37, 57, 68, 37, 57, 69, 37, 57, 70,
  37, 65, 48, 37, 65, 49, 37, 65, 50, 37, 65, 51, 37, 65, 52, 37, 65, 53, 37, 65, 54, 37, 65, 55,
  37, 65, 56, 37, 65, 57, 37, 65, 65, 37, 65, 66, 37, 65, 67, 37, 65, 68, 37, 65, 69, 37, 65, 70,
  37, 66, 48, 37, 66, 49, 37, 66, 50, 37, 66, 51, 37, 66, 52, 37, 66, 53, 37, 66, 54, 37, 66, 55,
  37, 66, 56, 37, 66, 57, 37, 66, 65, 37, 66, 66, 37, 66, 67, 37, 66, 68, 37, 66, 69, 37, 66, 70,
  37, 67, 48, 37, 67, 49, 37, 67, 50, 37, 67, 51, 37, 67, 52, 37, 67, 53, 37, 67, 54, 37, 67, 55,
  37, 67, 56, 37, 67, 57, 37, 67, 65, 37, 67, 66, 37, 67, 67, 37, 67, 68, 37, 67, 69, 37, 67, 70,
  37, 68, 48, 37, 68, 49, 37, 68, 50, 37, 68, 51, 37, 68, 52, 37, 68, 53, 37, 68, 54, 37, 68, 55,
  37, 68, 56, 37, 68, 57, 37, 68, 65, 37, 68, 66, 37, 68, 67, 37, 68, 68, 37, 68, 69, 37, 68, 70,
  37, 69, 48, 37, 69, 49, 37, 69, 50, 37, 69, 51, 37, 69, 52, 37, 69, 53, 37, 69, 54, 37, 69, 55,
  37, 69, 56, 37, 69, 57, 37, 69, 65, 37, 69, 66, 37, 69, 67, 37, 69, 68, 37, 69, 69, 37, 69, 70,
  37, 70, 48, 37, 70, 49, 37, 70, 50, 37, 70, 51, 37, 70, 52, 37, 70, 53, 37, 70, 54, 37, 70, 55,
  37, 70, 56, 37, 70, 57, 37, 70, 65, 37, 70, 66, 37, 70, 67, 37, 70, 68, 37, 70, 69, 37, 70, 70]

/-- `percent_encode_byte(byte)` returns the 3-byte slice `ENC_TABLE[3*byte .. 3*byte+3]`. -/
def percent_encode_byte (byte : Nat) : List Nat :=
  (ENC_TABLE.drop (3 * byte)).take 3

/-- The uppercase hexadecimal digit (as an ASCII byte) for a value `< 16`. -/
def hexUpperDigit (n : Nat) : Nat :=
  if n < 10 then 48 + n else 55 + n

/-! ## The `PercentEncode` iterator (`lib.rs` lines 147-182) -/

/-- One step of `PercentEncode::next`: on an encodable first byte, yield its `%HH` triple
and advance one byte; otherwise yield the maximal unencoded run and the remainder. -/
def percentEncodeNext (s : AsciiSet) : List Nat → Option (List Nat × List Nat)
  | [] => none
  | b :: rest =>
    if s.shouldPercentEncode b then
      some (percent_encode_byte b, rest)
    else
      some (b :: rest.takeWhile (fun x => !s.shouldPercentEncode x),
            rest.dropWhile (fun x => !s.shouldPercentEncode x))

/-- Helper for `percentEncodeList`: `run` is the unencoded run collected so far
(the bytes between `start_str` and the cursor in `PercentEncode::next`). -/
def percentEncodeAux (s : AsciiSet) (run : List Nat) : List Nat → List (List Nat)
  | [] => if run.isEmpty then [] else [run]
  | b :: rest =>
    if s.shouldPercentEncode b then
      if run.isEmpty then percent_encode_byte b :: percentEncodeAux s [] rest
      else run :: percent_encode_byte b :: percentEncodeAux s [] rest
    else percentEncodeAux s (run ++ [b]) rest

/-- The full fragment sequence produced by iterating `PercentEncode::next`:
each encoded byte yields its own `%HH` fragment, and each maximal run of
unencoded bytes yields one borrowed fragment. -/
def percentEncodeList (s : AsciiSet) (bytes : List Nat) : List (List Nat) :=
  percentEncodeAux s [] bytes

/-- `PercentEncode::size_hint` (`lib.rs` lines 175-181). -/
def percentEncodeSizeHint (bytes : List Nat) : Nat × Option Nat :=
  if bytes.isEmpty then (0, some 0) else (1, some bytes.length)

/-- `From<PercentEncode> for Cow<str>` (`lib.rs` lines 193-209): the result is
`Cow::Borrowed` exactly when the iterator yields no fragment or a single fragment. -/
def percentEncodeIsBorrowed (s : AsciiSet) (bytes : List Nat) : Bool :=
  match percentEncodeNext s bytes with
  | none => true
  | some (_, rest) => (percentEncodeNext s rest).isNone

/-! ## The `PercentDecode` iterator (`lib.rs` lines 240-306) -/

/-- `char::from(byte).to_digit(16)`. -/
def to_digit16 (b : Nat) : Option Nat :=
  if 48 ≤ b ∧ b ≤ 57 then some (b - 48)
  else if 65 ≤ b ∧ b ≤ 70 then some (b - 55)
  else if 97 ≤ b ∧ b ≤ 102 then some (b - 87)
  else none

/-- `after_percent_sign` (`lib.rs` lines 252-258) composed with `PercentDecode::next`:
the full decoded byte sequence.  A `%` followed by two hex digits consumes three bytes
and emits `hi*16+lo`; any other byte (including a `%` not so followed) is emitted
verbatim. -/
def percent_decode : List Nat → List Nat
  | [] => []
  | [b] => [b]
  | [b, x] => b :: percent_decode [x]
  | b :: h :: l :: rest2 =>
    if b = 37 then
      match to_digit16 h, to_digit16 l with
      | some hv, some lv => (hv * 16 + lv) :: percent_decode rest2
      | _, _ => b :: percent_decode (h :: l :: rest2)
    else b :: percent_decode (h :: l :: rest2)

/-- `PercentDecode::size_hint` (`lib.rs` lines 273-277). -/
def percentDecodeSizeHint (bytes : List Nat) : Nat × Option Nat :=
  ((bytes.length + 2) / 3, some bytes.length)

/-- `PercentDecode::if_any` (`lib.rs` lines 292-306), reduced to whether it returns
`Some`: scan for a `%`; if the two following bytes are hex digits, a decode happened;
otherwise continue scanning after the `%`. -/
def if_any : List Nat → Bool
  | [] => false
  | [_] => false
  | [_, x] => if_any [x]
  | b :: h :: l :: t =>
    if b = 37 then
      if (to_digit16 h).isSome && (to_digit16 l).isSome then true
      else if_any (h :: l :: t)
    else if_any (h :: l :: t)

/-- `From<PercentDecode> for Cow<[u8]>` (`lib.rs` lines 280-287): borrowed iff
`if_any` found nothing to decode. -/
def percentDecodeIsBorrowed (bytes : List Nat) : Bool :=
  !(if_any bytes)

/-! ## UTF-8 strict and lossy decoding (std semantics behind `decode_utf8` /
`decode_utf8_lossy`, `lib.rs` lines 308-365) -/

/-- Lower bound of the first continuation byte after lead byte `b`
(`0xE0` and `0xF0` exclude overlong encodings). -/
def utf8ContLo (b : Nat) : Nat :=
  if b = 0xE0 then 0xA0 else if b = 0xF0 then 0x90 else 0x80

/-- Upper bound of the first continuation byte after lead byte `b`
(`0xED` excludes surrogates, `0xF4` values above U+10FFFF). -/
def utf8ContHi (b : Nat) : Nat :=
  if b = 0xED then 0x9F else if b = 0xF4 then 0x8F else 0xBF

/-- Scalar value of a well-formed 2-byte UTF-8 sequence. -/
def utf8Val2 (b c1 : Nat) : Nat := (b - 0xC0) * 0x40 + (c1 - 0x80)

/-- Scalar value of a well-formed 3-byte UTF-8 sequence. -/
def utf8Val3 (b c1 c2 : Nat) : Nat :=
  (b - 0xE0) * 0x1000 + (c1 - 0x80) * 0x40 + (c2 - 0x80)

/-- Scalar value of a well-formed 4-byte UTF-8 sequence. -/
def utf8Val4 (b c1 c2 c3 : Nat) : Nat :=
  (b - 0xF0) * 0x40000 + (c1 - 0x80) * 0x1000 + (c2 - 0x80) * 0x40 + (c3 - 0x80)

/-- Whether `c1` is valid as the first continuation byte after lead byte `b`. -/
def utf8Cont1Ok (b c1 : Nat) : Prop := utf8ContLo b ≤ c1 ∧ c1 ≤ utf8ContHi b

/-- Whether `c` is a plain continuation byte. -/
def utf8ContOk (c : Nat) : Prop := 0x80 ≤ c ∧ c ≤ 0xBF

instance (b c1 : Nat) : Decidable (utf8Cont1Ok b c1) := by unfold utf8Cont1Ok; infer_instance

instance (c : Nat) : Decidable (utf8ContOk c) := by unfold utf8ContOk; infer_instance

/-- Strict UTF-8 decoding of a byte sequence to its scalar values
(`core::str::from_utf8` semantics): `none` on ill-formed input. -/
def utf8DecodeAll : List Nat → Option (List Nat)
  | [] => some []
  | [b] => if b < 0x80 then some [b] else none
  | [b, c1] =>
    if b < 0x80 then (utf8DecodeAll [c1]).map (b :: ·)
    else if 0xC2 ≤ b ∧ b ≤ 0xDF then
      if utf8Cont1Ok b c1 then some [utf8Val2 b c1] else none
    else none
  | [b, c1, c2] =>
    if b < 0x80 then (utf8DecodeAll [c1, c2]).map (b :: ·)
    else if 0xC2 ≤ b ∧ b ≤ 0xDF then
      if utf8Cont1Ok b c1 then (utf8DecodeAll [c2]).map (utf8Val2 b c1 :: ·) else none
    else if 0xE0 ≤ b ∧ b ≤ 0xEF then
      if utf8Cont1Ok b c1 ∧ utf8ContOk c2 then some [utf8Val3 b c1 c2] else none
    else none
  | b :: c1 :: c2 :: c3 :: r =>
    if b < 0x80 then (utf8DecodeAll (c1 :: c2 :: c3 :: r)).map (b :: ·)
    else if 0xC2 ≤ b ∧ b ≤ 0xDF then
      if utf8Cont1Ok b c1 then
        (utf8DecodeAll (c2 :: c3 :: r)).map (utf8Val2 b c1 :: ·)
      else none
    else if 0xE0 ≤ b ∧ b ≤ 0xEF then
      if utf8Cont1Ok b c1 ∧ utf8ContOk c2 then
        (utf8DecodeAll (c3 :: r)).map (utf8Val3 b c1 c2 :: ·)
      else none
    else if 0xF0 ≤ b ∧ b ≤ 0xF4 then
      if utf8Cont1Ok b c1 ∧ utf8ContOk c2 ∧ utf8ContOk c3 then
        (utf8DecodeAll r).map (utf8Val4 b c1 c2 c3 :: ·)
      else none
    else none

/-- Lossy UTF-8 decoding (`String::from_utf8_lossy` semantics): each maximal invalid
subpart is replaced by one U+FFFD and decoding resumes after it. -/
def utf8Lossy : List Nat → List Nat
  | [] => []
  | [b] =>
    if b < 0x80 then [b] else [0xFFFD]
  | [b, c1] =>
    if b < 0x80 then b :: utf8Lossy [c1]
    else if 0xC2 ≤ b ∧ b ≤ 0xDF then
      if utf8Cont1Ok b c1 then [utf8Val2 b c1] else 0xFFFD :: utf8Lossy [c1]
    else if (0xE0 ≤ b ∧ b ≤ 0xEF) ∨ (0xF0 ≤ b ∧ b ≤ 0xF4) then
      if utf8Cont1Ok b c1 then [0xFFFD] else 0xFFFD :: utf8Lossy [c1]
    else 0xFFFD :: utf8Lossy [c1]
  | [b, c1, c2] =>
    if b < 0x80 then b :: utf8Lossy [c1, c2]
    else if 0xC2 ≤ b ∧ b ≤ 0xDF then
      if utf8Cont1Ok b c1 then utf8Val2 b c1 :: utf8Lossy [c2]
      else 0xFFFD :: utf8Lossy [c1, c2]
    else if 0xE0 ≤ b ∧ b ≤ 0xEF then
      if utf8Cont1Ok b c1 then
        if utf8ContOk c2 then [utf8Val3 b c1 c2] else 0xFFFD :: utf8Lossy [c2]
      else 0xFFFD :: utf8Lossy [c1, c2]
    else if 0xF0 ≤ b ∧ b ≤ 0xF4 then
      if utf8Cont1Ok b c1 then
        if utf8ContOk c2 then [0xFFFD] else 0xFFFD :: utf8Lossy [c2]
      else 0xFFFD :: utf8Lossy [c1, c2]
    else 0xFFFD :: utf8Lossy [c1, c2]
  | b :: c1 :: c2 :: c3 :: r =>
    if b < 0x80 then b :: utf8Lossy (c1 :: c2 :: c3 :: r)
    else if 0xC2 ≤ b ∧ b ≤ 0xDF then
      if utf8Cont1Ok b c1 then utf8Val2 b c1 :: utf8Lossy (c2 :: c3 :: r)
      else 0xFFFD :: utf8Lossy (c1 :: c2 :: c3 :: r)
    else if 0xE0 ≤ b ∧ b ≤ 0xEF then
      if utf8Cont1Ok b c1 then
        if utf8ContOk c2 then utf8Val3 b c1 c2 :: utf8Lossy (c3 :: r)
        else 0xFFFD :: utf8Lossy (c2 :: c3 :: r)
      else 0xFFFD :: utf8Lossy (c1 :: c2 :: c3 :: r)
    else if 0xF0 ≤ b ∧ b ≤ 0xF4 then
      if utf8Cont1Ok b c1 then
        if utf8ContOk c2 then
          if utf8ContOk c3 then utf8Val4 b c1 c2 c3 :: utf8Lossy r
          else 0xFFFD :: utf8Lossy (c3 :: r)
        else 0xFFFD :: utf8Lossy (c2 :: c3 :: r)
      else 0xFFFD :: utf8Lossy (c1 :: c2 :: c3 :: r)
    else 0xFFFD :: utf8Lossy (c1 :: c2 :: c3 :: r)

/-- `PercentDecode::decode_utf8` (`lib.rs` lines 312-323): percent-decode, then
strictly UTF-8-decode. -/
def decode_utf8 (input : List Nat) : Option (List Nat) :=
  utf8DecodeAll (percent_decode input)

/-- `PercentDecode::decode_utf8_lossy` (`lib.rs` lines 330-332 and 339-365):
percent-decode, then lossily UTF-8-decode. -/
def decode_utf8_lossy (input : List Nat) : List Nat :=
  utf8Lossy (percent_decode input)

/-! ## The `url` parser: characters and the `Input` stream (`parser.rs`)

The `Input` cursor (`parser.rs` lines 195-298, 327-336) transparently skips ASCII
tab, LF and CR on every read, so two inputs differing only in tab/LF/CR positions
are indistinguishable to the parser.  We therefore model an input as the list of
characters the cursor will yield: the raw text with tab/LF/CR removed up front
(`stripTabNl`).  The constructors that trim and report violations are modelled
separately for `parse_url`. -/

/-- `ascii_tab_or_new_line` (`parser.rs` lines 1750-1753). -/
def ascii_tab_or_new_line (ch : Char) : Bool :=
  ch = '\t' || ch = '\n' || ch = '\r'

/-- `c0_control_or_space` (`parser.rs` lines 1744-1747). -/
def c0_control_or_space (ch : Char) : Bool :=
  ch ≤ ' '

/-- `ascii_alpha` (`parser.rs` lines 1756-1759). -/
def ascii_alpha (ch : Char) : Bool :=
  ch.isAlpha

/-- `char::to_ascii_lowercase`: fold only ASCII `A-Z`. -/
def charToLower (c : Char) : Char :=
  if 'A' ≤ c ∧ c ≤ 'Z' then Char.ofNat (c.toNat + 32) else c

/-- The character sequence an `Input` over `l` yields: `l` without tab/LF/CR. -/
def stripTabNl (l : List Char) : List Char :=
  l.filter (fun c => !ascii_tab_or_new_line c)

/-- `Context` (`parser.rs` lines 346-351). -/
inductive Context
  | UrlParser
  | Setter
  | PathSegmentSetter
deriving DecidableEq

/-- `ParseError` (`parser.rs` lines 88-99). -/
inductive ParseError
  | EmptyHost
  | IdnaError
  | InvalidPort
  | InvalidIpv4Address
  | InvalidIpv6Address
  | InvalidDomainCharacter
  | RelativeUrlWithoutBase
  | RelativeUrlWithCannotBeABaseBase
  | SetHostOnCannotBeABaseUrl
  | Overflow
deriving DecidableEq

/-- `SyntaxViolation` (`parser.rs` lines 136-151). -/
inductive SyntaxViolation
  | Backslash
  | C0SpaceIgnored
  | EmbeddedCredentials
  | ExpectedDoubleSlash
  | ExpectedFileDoubleSlash
  | FileWithHostAndWindowsDrive
  | NonUrlCodePoint
  | NullInFragment
  | PercentDecode
  | TabOrNewlineIgnored
  | UnencodedAtSign
deriving DecidableEq

/-- `SchemeType` (`parser.rs` lines 159-184). -/
inductive SchemeType
  | File
  | SpecialNotFile
  | NotSpecial
deriving DecidableEq

/-- `SchemeType::is_special`. -/
def SchemeType.is_special : SchemeType → Bool
  | .NotSpecial => false
  | _ => true

/-- `SchemeType::is_file`. -/
def SchemeType.is_file : SchemeType → Bool
  | .File => true
  | _ => false

/-- `SchemeType::from` (`parser.rs` lines 176-184). -/
def schemeTypeOf (s : List Char) : SchemeType :=
  if s = ['h','t','t','p'] ∨ s = ['h','t','t','p','s'] ∨ s = ['w','s']
      ∨ s = ['w','s','s'] ∨ s = ['f','t','p'] then
    SchemeType.SpecialNotFile
  else if s = ['f','i','l','e'] then SchemeType.File
  else SchemeType.NotSpecial

/-- `default_port` (`parser.rs` lines 186-193). -/
def default_port (scheme : List Char) : Option Nat :=
  if scheme = ['h','t','t','p'] ∨ scheme = ['w','s'] then some 80
  else if scheme = ['h','t','t','p','s'] ∨ scheme = ['w','s','s'] then some 443
  else if scheme = ['f','t','p'] then some 21
  else none

/-! ## `Parser::parse_scheme` (`parser.rs` lines 404-428) -/

/-- The scheme loop: lowercase `A-Z`, accept `[a-z0-9+.-]`, stop at `:`;
at end of input succeed only in `Setter` context, otherwise clear and fail.
Returns (remaining input on success, final serialization). -/
def parseSchemeLoop (context : Context) (acc : List Char) :
    List Char → Option (List Char) × List Char
  | [] => if context = Context.Setter then (some [], acc) else (none, [])
  | c :: rest =>
    if ('a' ≤ c ∧ c ≤ 'z') ∨ ('0' ≤ c ∧ c ≤ '9') ∨ c = '+' ∨ c = '-' ∨ c = '.' then
      parseSchemeLoop context (acc ++ [c]) rest
    else if 'A' ≤ c ∧ c ≤ 'Z' then
      parseSchemeLoop context (acc ++ [charToLower c]) rest
    else if c = ':' then (some rest, acc)
    else (none, [])

/-- `Parser::parse_scheme`, starting from an empty serialization. -/
def parse_scheme (context : Context) (input : List Char) : Option (List Char) × List Char :=
  match input with
  | c :: _ => if ascii_alpha c then parseSchemeLoop context [] input else (none, [])
  | [] => (none, [])

/-! ## `Parser::parse_port` (`parser.rs` lines 1114-1148) -/

/-- The port digit loop: accumulate decimal digits (failing past `u16::MAX`);
in `UrlParser` context any non-digit other than `/ \ ? #` is fatal; otherwise
break leaving the input at the terminator. -/
def parsePortLoop (context : Context) (port : Nat) (hasDigit : Bool) :
    List Char → Option (Nat × Bool × List Char)
  | [] => some (port, hasDigit, [])
  | c :: rest =>
    if c.isDigit then
      if port * 10 + (c.toNat - 48) > 65535 then none
      else parsePortLoop context (port * 10 + (c.toNat - 48)) true rest
    else if context = Context.UrlParser ∧ ¬(c = '/' ∨ c = '\\' ∨ c = '?' ∨ c = '#') then
      none
    else some (port, hasDigit, c :: rest)

/-- `Parser::parse_port`: run the loop, then apply the Setter empty-digits check and
elide a default or absent port. -/
def parse_port (input : List Char) (defaultPort : Option Nat) (context : Context) :
    Except ParseError (Option Nat × List Char) :=
  match parsePortLoop context 0 false input with
  | none => Except.error ParseError.InvalidPort
  | some (port, hasDigit, remaining) =>
    if ¬hasDigit ∧ context = Context.Setter ∧ remaining ≠ [] then
      Except.error ParseError.InvalidPort
    else
      Except.ok (if ¬hasDigit ∨ some port = defaultPort then none else some port, remaining)

/-- `fast_u16_to_str` (`parser.rs` lines 1816-1836): decimal digits most significant
first, filled from the end of a 5-byte buffer by repeated division by 10 (a single
`'0'` for zero); the fuel mirrors the 5-byte buffer. -/
def fastU16ToStrAux : Nat → Nat → List Char → List Char
  | 0, _, acc => acc
  | fuel + 1, value, acc =>
    if value / 10 = 0 then Char.ofNat (48 + value % 10) :: acc
    else fastU16ToStrAux fuel (value / 10) (Char.ofNat (48 + value % 10) :: acc)

def fastU16ToStr (value : Nat) : List Char :=
  fastU16ToStrAux 5 value []

/-! ## Host scanning and `Parser::parse_host_and_port` (`parser.rs` lines 954-1112)

`Host::parse`, `Host::parse_opaque` and the `Host` display live in `host.rs`, which is
not under `src/`.  Modelled from the spec (§6, §4.4.3): the host substring (with
tab/LF/CR stripped) is consumed up to a terminator and then "written verbatim (using
its own display rules)"; the canonical display is modelled as the substring itself. -/

/-- The host-substring scan of `Parser::parse_host` (`parser.rs` lines 1000-1034):
read until an unescaped `:` outside brackets, `/`, `?`, `#`, or (special) `\`. -/
def hostScan (scheme_type : SchemeType) (insideBrackets : Bool) :
    List Char → List Char × List Char
  | [] => ([], [])
  | c :: rest =>
    if c = ':' ∧ ¬insideBrackets then ([], c :: rest)
    else if c = '\\' ∧ scheme_type.is_special = true then ([], c :: rest)
    else if c = '/' ∨ c = '?' ∨ c = '#' then ([], c :: rest)
    else if c = '[' then
      let p := hostScan scheme_type true rest
      (c :: p.1, p.2)
    else if c = ']' then
      let p := hostScan scheme_type false rest
      (c :: p.1, p.2)
    else
      let p := hostScan scheme_type insideBrackets rest
      (c :: p.1, p.2)

/-- `starts_with_windows_drive_letter` (`parser.rs` lines 1791-1796). -/
def starts_with_windows_drive_letter (s : List Char) : Bool :=
  match s with
  | a :: b :: rest =>
    ascii_alpha a && (b = ':' || b = '|')
      && (rest = [] || (match rest with
          | c :: _ => c = '/' || c = '\\' || c = '?' || c = '#'
          | [] => true))
  | _ => false

/-- `is_windows_drive_letter` (`parser.rs` lines 1777-1779). -/
def is_windows_drive_letter (segment : List Char) : Bool :=
  segment.length = 2 && starts_with_windows_drive_letter segment

/-- `is_normalized_windows_drive_letter` (`parser.rs` lines 1770-1772). -/
def is_normalized_windows_drive_letter (segment : List Char) : Bool :=
  is_windows_drive_letter segment
    && (match segment with
        | _ :: b :: _ => b = ':'
        | _ => false)

/-- `Parser::file_host` scanning (`parser.rs` lines 1082-1112): read until
`/ \ ? #`. -/
def fileHostScan : List Char → List Char × List Char
  | [] => ([], [])
  | c :: rest =>
    if c = '/' ∨ c = '\\' ∨ c = '?' ∨ c = '#' then ([], c :: rest)
    else
      let p := fileHostScan rest
      (c :: p.1, p.2)

/-- `Parser::parse_host` (`parser.rs` lines 991-1044), with `get_file_host`
(lines 1046-1055) for the file scheme.  Modelled from the spec: host
canonicalization is the identity; `localhost` becomes the empty host for files.
Returns (serialized host, remaining input). -/
def parse_host (scheme_type : SchemeType) (input : List Char) :
    Except ParseError (List Char × List Char) :=
  if scheme_type = SchemeType.File then
    let p := fileHostScan input
    if is_windows_drive_letter p.1 then Except.ok ([], input)
    else if p.1 = ['l','o','c','a','l','h','o','s','t'] then Except.ok ([], p.2)
    else Except.ok (p.1, p.2)
  else
    let p := hostScan scheme_type false input
    if scheme_type = SchemeType.SpecialNotFile ∧ p.1 = [] then
      Except.error ParseError.EmptyHost
    else Except.ok (p.1, p.2)

/-- `Input::split_prefix(':')`: consume a leading `:`. -/
def splitColon (input : List Char) : Option (List Char) :=
  match input with
  | c :: rest => if c = ':' then some rest else none
  | [] => none

/-- `HostInternal` (`host.rs`, not under src/) -- Modelled from the spec (§3): only the
host classification; an empty domain is `None`. -/
inductive HostInternal
  | None
  | Domain
deriving DecidableEq

/-- The `HostInternal` classification of a modelled (textual) host. -/
def hostInternalOf (host : List Char) : HostInternal :=
  if host = [] then HostInternal.None else HostInternal.Domain

/-- `Parser::parse_host_and_port` (`parser.rs` lines 954-989): append the host to the
serialization, check the empty-host cases, then parse an optional `:port` and append
`:` and the decimal digits only when the port is recorded.
Returns (serialization, host_end, host, port, remaining). -/
def parse_host_and_port (serialization : List Char) (scheme_end : Nat)
    (scheme_type : SchemeType) (context : Context) (input : List Char) :
    Except ParseError (List Char × Nat × HostInternal × Option Nat × List Char) :=
  match parse_host scheme_type input with
  | Except.error e => Except.error e
  | Except.ok (host, remaining) =>
    let serialization1 := serialization ++ host
    let host_end := serialization1.length
    if host = [] ∧ ((splitColon remaining).isSome ∨ scheme_type.is_special = true) then
      Except.error ParseError.EmptyHost
    else
      match splitColon remaining with
      | some afterColon =>
        match parse_port afterColon (default_port (serialization1.take scheme_end)) context with
        | Except.error e => Except.error e
        | Except.ok (port, remaining2) =>
          match port with
          | some p =>
            Except.ok (serialization1 ++ ':' :: fastU16ToStr p, host_end,
              hostInternalOf host, some p, remaining2)
          | none => Except.ok (serialization1, host_end, hostInternalOf host, none, remaining2)
      | none => Except.ok (serialization1, host_end, hostInternalOf host, none, remaining)

/-! ## The anarchist-URL fixup of `Parser::with_query_and_fragment`
(`parser.rs` lines 1444-1496) -/

/-- The fixup on (serialization, path_start) before the URL record is emitted:
insert `/.` after the scheme colon when the path directly follows the colon and
starts with `//`; remove a `/.` left by the base URL when the path no longer
starts with `/`. -/
def anarchistFixup (serialization : List Char) (scheme_end path_start : Nat) :
    List Char × Nat :=
  if path_start = scheme_end + 1 then
    if (serialization.drop path_start).take 2 = ['/', '/'] then
      (serialization.take path_start ++ '/' :: '.' :: serialization.drop path_start,
        path_start + 2)
    else (serialization, path_start)
  else if path_start = scheme_end + 3
      ∧ (serialization.drop scheme_end).take 3 = [':', '/', '.'] then
    if serialization[path_start + 1]? ≠ some '/' then
      (serialization.take scheme_end ++ ':' :: serialization.drop path_start,
        path_start - 2)
    else (serialization, path_start)
  else (serialization, path_start)

/-- The decimal value of a digit string (digits are ASCII `0-9`). -/
def digitsVal (ds : List Char) : Nat :=
  ds.foldl (fun a c => a * 10 + (c.toNat - 48)) 0

/-! ## The full URL parser (`parser.rs` lines 379-952, 1150-1694)

The rest of the `Parser::parse_url` state machine.  The mutable parser state is
the serialization buffer together with the list of syntax violations reported so
far: the violation observer is modelled as always collecting (the observer never
influences parsing, and the tests the source only runs when an observer is
installed are pure).  Loops are written by structural recursion on the input
list or, for the segment loop of `parse_path`, with explicit fuel
`input.length + 1`; every iteration of that loop past the last consumes the
terminating slash, so the fuel suffices and the fuel-exhausted branch (which
returns the state unchanged) is unreachable.  The `to_u32` overflow guard is
kept where the source control flow has one.  As everywhere in this embedding,
inputs are the character sequences the `Input` cursor yields (tab/LF/CR already
stripped); on tab-free text the bulk `push_pending` buffering of `parse_path`
and the tab-separated query and fragment parts flush at exactly the points
modelled here. -/

/-- The `Url` record (`lib.rs`), with the fields `parser.rs` constructs. -/
structure Url where
  serialization : List Char
  scheme_end : Nat
  username_end : Nat
  host_start : Nat
  host_end : Nat
  host : HostInternal
  port : Option Nat
  path_start : Nat
  query_start : Option Nat
  fragment_start : Option Nat
deriving DecidableEq

/-- Modelled from the spec: `Url::scheme` is the serialization before the `:`. -/
def Url.scheme (u : Url) : List Char := u.serialization.take u.scheme_end

/-- Modelled from the spec: a URL cannot be a base iff its path does not start
with `/`. -/
def Url.cannot_be_a_base (u : Url) : Bool :=
  decide ((u.serialization.drop u.path_start).head? ≠ some '/')

/-- The slice before the fragment (`parser.rs` lines 623-626 pattern). -/
def Url.before_fragment (u : Url) : List Char :=
  match u.fragment_start with
  | some i => u.serialization.take i
  | none => u.serialization

/-- The slice before the query string (`parser.rs` lines 636-639 pattern). -/
def Url.before_query (u : Url) : List Char :=
  match u.query_start, u.fragment_start with
  | none, none => u.serialization
  | some i, _ => u.serialization.take i
  | none, some i => u.serialization.take i

/-- Where the path ends: at the query, else at the fragment, else at the end. -/
def Url.path_end (u : Url) : Nat :=
  match u.query_start, u.fragment_start with
  | some q, _ => q
  | none, some f => f
  | none, none => u.serialization.length

/-- Modelled from the spec: the first element of `Url::path_segments` (the text
between the leading `/` of the path and the next `/`). -/
def Url.first_path_segment (u : Url) : List Char :=
  ((u.serialization.take u.path_end).drop (u.path_start + 1)).takeWhile (fun c => c ≠ '/')

/-- Modelled from the spec: `Url::host_str` for a URL that has a host. -/
def Url.host_str (u : Url) : Option (List Char) :=
  if u.host = HostInternal.None then none
  else some ((u.serialization.take u.host_end).drop u.host_start)

/-- `to_u32` (`parser.rs` lines 1762-1768). -/
def to_u32 (i : Nat) : Except ParseError Nat :=
  if i ≤ 4294967295 then Except.ok i else Except.error ParseError.Overflow

/-- The mutable parser state: `Parser::serialization` and the violations
reported so far. -/
structure Pst where
  serialization : List Char
  violations : List SyntaxViolation
deriving DecidableEq

/-- `Parser::log_violation`. -/
def Pst.log (st : Pst) (v : SyntaxViolation) : Pst :=
  { st with violations := st.violations ++ [v] }

/-- `Parser::log_violation_if`. -/
def Pst.logIf (st : Pst) (v : SyntaxViolation) (test : Bool) : Pst :=
  if test then st.log v else st

/-- Append text to the serialization. -/
def Pst.push (st : Pst) (text : List Char) : Pst :=
  { st with serialization := st.serialization ++ text }

/-- Record violations computed separately. -/
def Pst.addViols (st : Pst) (vs : List SyntaxViolation) : Pst :=
  { st with violations := st.violations ++ vs }

/-- The `FRAGMENT` encode set (`parser.rs` line 20). -/
def FRAGMENT : AsciiSet := ((((CONTROLS.add 32).add 34).add 60).add 62).add 96

/-- The `PATH` encode set (`parser.rs` line 23). -/
def PATH : AsciiSet := (((FRAGMENT.add 35).add 63).add 123).add 125

/-- The `USERINFO` encode set (`parser.rs` lines 26-36). -/
def USERINFO : AsciiSet :=
  (((((((((PATH.add 47).add 58).add 59).add 61).add 64).add 91).add 92).add 93).add 94).add 124

/-- The `PATH_SEGMENT` encode set (`parser.rs` line 38). -/
def PATH_SEGMENT : AsciiSet := (PATH.add 47).add 37

/-- The `SPECIAL_PATH_SEGMENT` encode set (`parser.rs` line 42). -/
def SPECIAL_PATH_SEGMENT : AsciiSet := PATH_SEGMENT.add 92

/-- The `QUERY` encode set (`parser.rs` line 45). -/
def QUERY : AsciiSet := ((((CONTROLS.add 32).add 34).add 35).add 60).add 62

/-- The `SPECIAL_QUERY` encode set (`parser.rs` line 46). -/
def SPECIAL_QUERY : AsciiSet := QUERY.add 39

/-- The UTF-8 encoding of a character: the bytes `utf8_percent_encode` sees. -/
def utf8EncodeChar (c : Char) : List Nat :=
  if c.toNat < 128 then [c.toNat]
  else if c.toNat < 2048 then [192 + c.toNat / 64, 128 + c.toNat % 64]
  else if c.toNat < 65536 then
    [224 + c.toNat / 4096, 128 + c.toNat / 64 % 64, 128 + c.toNat % 64]
  else
    [240 + c.toNat / 262144, 128 + c.toNat / 4096 % 64, 128 + c.toNat / 64 % 64,
      128 + c.toNat % 64]

/-- `percent_encode` of a byte sequence, as serialization characters. -/
def encodeBytesWith (s : AsciiSet) (bs : List Nat) : List Char :=
  ((bs.map (fun b =>
    if s.shouldPercentEncode b then percent_encode_byte b else [b])).flatten).map Char.ofNat

/-- `utf8_percent_encode` of one character. -/
def encodeCharWith (s : AsciiSet) (c : Char) : List Char :=
  encodeBytesWith s (utf8EncodeChar c)

/-- `utf8_percent_encode` of a string. -/
def encodeStrWith (s : AsciiSet) (l : List Char) : List Char :=
  (l.map (encodeCharWith s)).flatten

/-- `u8::is_ascii_hexdigit`. -/
def isAsciiHexDigit (c : Char) : Bool :=
  c.isDigit || decide (97 ≤ c.toNat ∧ c.toNat ≤ 102) || decide (65 ≤ c.toNat ∧ c.toNat ≤ 70)

/-- `is_url_code_point` (`parser.rs` lines 1724-1741). -/
def is_url_code_point (c : Char) : Bool :=
  decide ((97 ≤ c.toNat ∧ c.toNat ≤ 122) ∨ (65 ≤ c.toNat ∧ c.toNat ≤ 90)
    ∨ (48 ≤ c.toNat ∧ c.toNat ≤ 57)
    ∨ c.toNat = 33 ∨ c.toNat = 36 ∨ c.toNat = 38 ∨ c.toNat = 39
    ∨ (40 ≤ c.toNat ∧ c.toNat ≤ 47)
    ∨ c.toNat = 58 ∨ c.toNat = 59 ∨ c.toNat = 61 ∨ c.toNat = 63 ∨ c.toNat = 64
    ∨ c.toNat = 95 ∨ c.toNat = 126
    ∨ (160 ≤ c.toNat ∧ c.toNat ≤ 55295) ∨ (57344 ≤ c.toNat ∧ c.toNat ≤ 64975)
    ∨ (64992 ≤ c.toNat ∧ c.toNat ≤ 65533)
    ∨ (65536 ≤ c.toNat ∧ c.toNat ≤ 131069) ∨ (131072 ≤ c.toNat ∧ c.toNat ≤ 196605)
    ∨ (196608 ≤ c.toNat ∧ c.toNat ≤ 262141) ∨ (262144 ≤ c.toNat ∧ c.toNat ≤ 327677)
    ∨ (327680 ≤ c.toNat ∧ c.toNat ≤ 393213) ∨ (393216 ≤ c.toNat ∧ c.toNat ≤ 458749)
    ∨ (458752 ≤ c.toNat ∧ c.toNat ≤ 524285) ∨ (524288 ≤ c.toNat ∧ c.toNat ≤ 589821)
    ∨ (589824 ≤ c.toNat ∧ c.toNat ≤ 655357) ∨ (655360 ≤ c.toNat ∧ c.toNat ≤ 720893)
    ∨ (720896 ≤ c.toNat ∧ c.toNat ≤ 786429) ∨ (786432 ≤ c.toNat ∧ c.toNat ≤ 851965)
    ∨ (851968 ≤ c.toNat ∧ c.toNat ≤ 917501) ∨ (921600 ≤ c.toNat ∧ c.toNat ≤ 983037)
    ∨ (983040 ≤ c.toNat ∧ c.toNat ≤ 1048573) ∨ (1048576 ≤ c.toNat ∧ c.toNat ≤ 1114109))

/-- `check_url_code_point` (`parser.rs` lines 1704-1715), with the input
positioned just after `c` as lookahead; the violations it reports. -/
def check_url_code_point (c : Char) (lookahead : List Char) : List SyntaxViolation :=
  if c = '%' then
    match lookahead with
    | a :: b :: _ =>
      if isAsciiHexDigit a && isAsciiHexDigit b then [] else [SyntaxViolation.PercentDecode]
    | _ => [SyntaxViolation.PercentDecode]
  else if is_url_code_point c then []
  else [SyntaxViolation.NonUrlCodePoint]

/-- `str::trim_matches` on both ends
(`Input::new_trim_c0_control_and_space`, `parser.rs` lines 226-243). -/
def trimMatches (p : Char → Bool) (l : List Char) : List Char :=
  ((l.dropWhile p).reverse.dropWhile p).reverse

/-- `str::rfind('/')`: the index of the last `/`. -/
def rfindSlash (l : List Char) : Option Nat :=
  match l.reverse.findIdx? (fun c => c = '/') with
  | some i => some (l.length - 1 - i)
  | none => none

/-- `path_starts_with_windows_drive_letter` (`parser.rs` lines 1783-1789). -/
def path_starts_with_windows_drive_letter (s : List Char) : Bool :=
  match s with
  | c :: rest =>
    (c = '/' || c = '\\' || c = '?' || c = '#') && starts_with_windows_drive_letter rest
  | [] => false

/-- `starts_with_windows_drive_letter_segment` (`parser.rs` lines 1799-1814). -/
def starts_with_windows_drive_letter_segment (l : List Char) : Bool :=
  match l with
  | a :: b :: c :: _ =>
    ascii_alpha a && (b = ':' || b = '|') && (c = '/' || c = '\\' || c = '?' || c = '#')
  | [a, b] => ascii_alpha a && (b = ':' || b = '|')
  | _ => false

/-- `Parser::last_slash_can_be_removed` (`parser.rs` lines 1384-1394). -/
def last_slash_can_be_removed (serialization : List Char) (path_start : Nat) : Bool :=
  match rfindSlash (serialization.take (serialization.length - 1)) with
  | some segment_before_start =>
    decide (path_start ≤ segment_before_start)
      && ! path_starts_with_windows_drive_letter (serialization.drop segment_before_start)
  | none => false

/-- `Parser::pop_path` (`parser.rs` lines 1413-1425).  (The `rfind` cannot fail
in reachable states; it is totalized with 0.) -/
def pop_path (scheme_type : SchemeType) (path_start : Nat) (serialization : List Char) :
    List Char :=
  if path_start < serialization.length then
    let slash_position := (rfindSlash (serialization.drop path_start)).getD 0
    let segment_start := path_start + slash_position + 1
    if ¬(scheme_type.is_file = true
        ∧ is_normalized_windows_drive_letter (serialization.drop segment_start) = true) then
      serialization.take segment_start
    else serialization
  else serialization

/-- `Parser::shorten_path` (`parser.rs` lines 1397-1410). -/
def shorten_path (scheme_type : SchemeType) (path_start : Nat) (serialization : List Char) :
    List Char :=
  if serialization.length = path_start then serialization
  else if scheme_type.is_file = true
      ∧ is_normalized_windows_drive_letter (serialization.drop path_start) = true then
    serialization
  else pop_path scheme_type path_start serialization

/-- The encode set `push_pending` uses (`parser.rs` lines 1197-1217). -/
def pathSet (context : Context) (scheme_type : SchemeType) : AsciiSet :=
  if context = Context.PathSegmentSetter then
    if scheme_type.is_special = true then SPECIAL_PATH_SEGMENT else PATH_SEGMENT
  else PATH

/-- The per-segment inner loop of `Parser::parse_path` (`parser.rs` lines
1224-1310) on tab-free input: `pending` is the not-yet-encoded `start_str`
window, flushed in bulk exactly where the source calls `push_pending`.
Returns (state, segment_start, ends_with_slash, remaining input). -/
def parsePathSegment (scheme_type : SchemeType) (context : Context) (path_start : Nat) :
    Nat → Pst → List Char → List Char → Pst × Nat × Bool × List Char
  | segment_start, st, pending, [] =>
    (st.push (encodeStrWith (pathSet context scheme_type) pending), segment_start, false, [])
  | segment_start, st, pending, c :: rest =>
    if c = '/' ∧ context ≠ Context.PathSegmentSetter then
      ((st.push (encodeStrWith (pathSet context scheme_type) pending)).push ['/'],
        segment_start, true, rest)
    else if c = '\\' ∧ context ≠ Context.PathSegmentSetter ∧ scheme_type.is_special = true then
      (((st.push (encodeStrWith (pathSet context scheme_type) pending)).log
          SyntaxViolation.Backslash).push ['/'],
        segment_start, true, rest)
    else if (c = '?' ∨ c = '#') ∧ context = Context.UrlParser then
      (st.push (encodeStrWith (pathSet context scheme_type) pending), segment_start, false,
        c :: rest)
    else
      let st1 := st.addViols (check_url_code_point c rest)
      if scheme_type.is_file = true ∧ path_start < st1.serialization.length
          ∧ is_normalized_windows_drive_letter (st1.serialization.drop (path_start + 1)) = true
      then
        parsePathSegment scheme_type context path_start (segment_start + 1)
          ((st1.push (encodeStrWith (pathSet context scheme_type) pending)).push ['/'])
          [c] rest
      else
        parsePathSegment scheme_type context path_start segment_start st1 (pending ++ [c]) rest

/-- The `".." | "%2e%2e" | ...` segment patterns (`parser.rs` lines 1319-1320). -/
def isDoubleDotSegment (seg : List Char) : Bool :=
  decide (seg = ['.','.'] ∨ seg = ['%','2','e','%','2','e'] ∨ seg = ['%','2','e','%','2','E']
    ∨ seg = ['%','2','E','%','2','e'] ∨ seg = ['%','2','E','%','2','E']
    ∨ seg = ['%','2','e','.'] ∨ seg = ['%','2','E','.']
    ∨ seg = ['.','%','2','e'] ∨ seg = ['.','%','2','E'])

/-- The `"." | "%2e" | "%2E"` segment patterns (`parser.rs` line 1337). -/
def isSingleDotSegment (seg : List Char) : Bool :=
  decide (seg = ['.'] ∨ seg = ['%','2','e'] ∨ seg = ['%','2','E'])

/-- The segment post-processing of `Parser::parse_path` (`parser.rs` lines
1312-1366): dot-segment shortening and the windows drive-letter rewrite.
Returns the updated state and `has_host`. -/
def processPathSegment (scheme_type : SchemeType) (path_start segment_start : Nat)
    (ends_with_slash has_host : Bool) (st : Pst) : Pst × Bool :=
  let seg :=
    if ends_with_slash then
      (st.serialization.take (st.serialization.length - 1)).drop segment_start
    else st.serialization.drop segment_start
  if isDoubleDotSegment seg = true then
    let s1 := st.serialization.take segment_start
    let s2 :=
      if s1.getLast? = some '/' ∧ last_slash_can_be_removed s1 path_start = true then
        s1.take (s1.length - 1)
      else s1
    let s3 := shorten_path scheme_type path_start s2
    let s4 := if ends_with_slash = true ∧ s3.getLast? ≠ some '/' then s3 ++ ['/'] else s3
    ({ st with serialization := s4 }, has_host)
  else if isSingleDotSegment seg = true then
    let s1 := st.serialization.take segment_start
    let s2 := if s1.getLast? ≠ some '/' then s1 ++ ['/'] else s1
    ({ st with serialization := s2 }, has_host)
  else
    if scheme_type.is_file = true ∧ segment_start = path_start + 1
        ∧ is_windows_drive_letter seg = true then
      let st1 :=
        match seg.head? with
        | some c =>
          { st with serialization :=
              st.serialization.take segment_start ++ [c, ':']
                ++ (if ends_with_slash then ['/'] else []) }
        | none => st
      if has_host then (st1.log SyntaxViolation.FileWithHostAndWindowsDrive, false)
      else (st1, has_host)
    else (st, has_host)

/-- The outer segment loop of `Parser::parse_path` (`parser.rs` lines
1220-1370). -/
def parsePathLoop (scheme_type : SchemeType) (context : Context) (path_start : Nat) :
    Nat → Bool → Pst → List Char → Pst × Bool × List Char
  | 0, has_host, st, input => (st, has_host, input)
  | fuel + 1, has_host, st, input =>
    match parsePathSegment scheme_type context path_start st.serialization.length st [] input
    with
    | (st1, segStart, ends_with_slash, remaining) =>
      match processPathSegment scheme_type path_start segStart ends_with_slash has_host st1
      with
      | (st2, has_host2) =>
        if ends_with_slash then
          parsePathLoop scheme_type context path_start fuel has_host2 st2 remaining
        else (st2, has_host2, remaining)

/-- `Parser::parse_path` (`parser.rs` lines 1189-1382).  Returns (state,
`has_host`, remaining input). -/
def parse_path (scheme_type : SchemeType) (context : Context) (has_host : Bool)
    (path_start : Nat) (st : Pst) (input : List Char) : Pst × Bool × List Char :=
  match parsePathLoop scheme_type context path_start (input.length + 1) has_host st input with
  | (st1, has_host1, remaining) =>
    if scheme_type.is_file = true then
      ({ st1 with serialization :=
          st1.serialization.take path_start
            ++ '/' :: (st1.serialization.drop path_start).dropWhile (fun c => c = '/') },
        has_host1, remaining)
    else (st1, has_host1, remaining)

/-- `Parser::parse_path_start` (`parser.rs` lines 1150-1187).  Returns (state,
`has_host`, remaining input). -/
def parse_path_start (scheme_type : SchemeType) (context : Context) (has_host : Bool)
    (st : Pst) (input : List Char) : Pst × Bool × List Char :=
  let path_start := st.serialization.length
  let maybe_c := input.head?
  if scheme_type.is_special = true then
    let st1 := st.logIf SyntaxViolation.Backslash (decide (maybe_c = some '\\'))
    if st1.serialization.getLast? ≠ some '/' then
      let st2 := st1.push ['/']
      if maybe_c = some '/' ∨ maybe_c = some '\\' then
        parse_path scheme_type context has_host path_start st2 input.tail
      else
        parse_path scheme_type context has_host path_start st2 input
    else
      parse_path scheme_type context has_host path_start st1 input
  else if maybe_c = some '?' ∨ maybe_c = some '#' then (st, has_host, input)
  else
    let st1 := if maybe_c.isSome = true ∧ maybe_c ≠ some '/' then st.push ['/'] else st
    parse_path scheme_type context has_host path_start st1 input

/-- `Parser::parse_cannot_be_a_base_path` (`parser.rs` lines 1427-1442). -/
def parse_cannot_be_a_base_path (context : Context) :
    Pst → List Char → Pst × List Char
  | st, [] => (st, [])
  | st, c :: rest =>
    if (c = '?' ∨ c = '#') ∧ context = Context.UrlParser then (st, c :: rest)
    else
      parse_cannot_be_a_base_path context
        ((st.addViols (check_url_code_point c rest)).push (encodeCharWith CONTROLS c)) rest

/-- The per-character violation scan of `QueryPartIter` (`parser.rs` lines
1559-1589): each query character before the terminating `#` is checked with the
rest of the input as lookahead. -/
def queryScanViols (isUrlParser : Bool) : List Char → List SyntaxViolation
  | [] => []
  | c :: rest =>
    if c = '#' ∧ isUrlParser = true then []
    else check_url_code_point c rest ++ queryScanViols isUrlParser rest

/-- `Parser::parse_query` (`parser.rs` lines 1544-1623) on tab-free input: the
query text (up to `#` in the URL-parser context) forms one part, encoded with
the scheme's query set -- through the encoding override when one is installed
and the scheme is `http(s)`, `file` or `ftp`.  Returns the state and the input
after `#` when a fragment follows. -/
def parse_query (scheme_type : SchemeType) (scheme_end : Nat) (context : Context)
    (override : Option (List Char → List (Fin 256))) (st : Pst) (input : List Char) :
    Pst × Option (List Char) :=
  match input with
  | [] => (st, none)
  | _ :: _ =>
    let set := if scheme_type.is_special = true then SPECIAL_QUERY else QUERY
    let o :=
      match override with
      | some o =>
        if st.serialization.take scheme_end = ['h','t','t','p']
            ∨ st.serialization.take scheme_end = ['h','t','t','p','s']
            ∨ st.serialization.take scheme_end = ['f','i','l','e']
            ∨ st.serialization.take scheme_end = ['f','t','p'] then some o
        else none
      | none => none
    let part :=
      if context = Context.UrlParser then input.takeWhile (fun c => c ≠ '#') else input
    let st1 := st.addViols (queryScanViols (decide (context = Context.UrlParser)) input)
    let st2 :=
      match o with
      | some o => st1.push (encodeBytesWith set ((o part).map Fin.val))
      | none => st1.push (encodeStrWith set part)
    if context = Context.UrlParser then
      match input.dropWhile (fun c => c ≠ '#') with
      | _ :: rest => (st2, some rest)
      | [] => (st2, none)
    else (st2, none)

/-- The violation scan of `FragmentPartIter` (`parser.rs` lines 1654-1682). -/
def fragmentScanViols : List Char → List SyntaxViolation
  | [] => []
  | c :: rest =>
    (if c = Char.ofNat 0 then [SyntaxViolation.NullInFragment]
     else check_url_code_point c rest) ++ fragmentScanViols rest

/-- `Parser::parse_fragment` (`parser.rs` lines 1645-1694) on tab-free input. -/
def parse_fragment (st : Pst) (input : List Char) : Pst :=
  (st.addViols (fragmentScanViols input)).push (encodeStrWith FRAGMENT input)

/-- `Parser::parse_query_and_fragment` (`parser.rs` lines 1515-1542): returns
(query_start, fragment_start).  (The source panics when the input starts with
anything but `?` or `#`; that branch, unreachable from `parse_url`, is modelled
as reporting neither.) -/
def parse_query_and_fragment (scheme_type : SchemeType) (scheme_end : Nat)
    (context : Context) (override : Option (List Char → List (Fin 256))) (st : Pst)
    (input : List Char) : Pst × Except ParseError (Option Nat × Option Nat) :=
  match input with
  | [] => (st, Except.ok (none, none))
  | c :: rest =>
    if c = '#' then
      match to_u32 st.serialization.length with
      | Except.error e => (st, Except.error e)
      | Except.ok fragment_start =>
        (parse_fragment (st.push ['#']) rest, Except.ok (none, some fragment_start))
    else if c = '?' then
      match to_u32 st.serialization.length with
      | Except.error e => (st, Except.error e)
      | Except.ok query_start =>
        match parse_query scheme_type scheme_end context override (st.push ['?']) rest with
        | (st1, none) => (st1, Except.ok (some query_start, none))
        | (st1, some remaining) =>
          match to_u32 st1.serialization.length with
          | Except.error e => (st1, Except.error e)
          | Except.ok fragment_start =>
            (parse_fragment (st1.push ['#']) remaining,
              Except.ok (some query_start, some fragment_start))
    else (st, Except.ok (none, none))

/-- `Parser::fragment_only` (`parser.rs` lines 1625-1643). -/
def fragment_only (base : Url) (st : Pst) (input : List Char) :
    Pst × Except ParseError Url :=
  let before_fragment := base.before_fragment
  let st2 := parse_fragment ((st.push before_fragment).push ['#']) (input.drop 1)
  match to_u32 before_fragment.length with
  | Except.error e => (st2, Except.error e)
  | Except.ok fs =>
    (st2, Except.ok { base with serialization := st2.serialization, fragment_start := some fs })

/-- `Parser::with_query_and_fragment` (`parser.rs` lines 1445-1512): the
anarchist-URL fixup, then the query and fragment, then the `Url` record. -/
def with_query_and_fragment (scheme_type : SchemeType) (context : Context)
    (override : Option (List Char → List (Fin 256))) (scheme_end username_end host_start
    host_end : Nat) (host : HostInternal) (port : Option Nat) (path_start : Nat)
    (st : Pst) (remaining : List Char) : Pst × Except ParseError Url :=
  match anarchistFixup st.serialization scheme_end path_start with
  | (ser1, path_start1) =>
    let st1 := { st with serialization := ser1 }
    match parse_query_and_fragment scheme_type scheme_end context override st1 remaining with
    | (st2, Except.error e) => (st2, Except.error e)
    | (st2, Except.ok (query_start, fragment_start)) =>
      (st2, Except.ok {
        serialization := st2.serialization,
        scheme_end := scheme_end,
        username_end := username_end,
        host_start := host_start,
        host_end := host_end,
        host := host,
        port := port,
        path_start := path_start1,
        query_start := query_start,
        fragment_start := fragment_start })

/-- The `@`-scanning loop of `Parser::parse_userinfo` (`parser.rs` lines
885-903): find the last `@` before the authority terminator, reporting the
credential violations.  Returns the last `@` as (count of characters before it,
input after it), with the violations. -/
def userinfoScan (special : Bool) :
    List Char → Nat → Option (Nat × List Char) → List SyntaxViolation →
      Option (Nat × List Char) × List SyntaxViolation
  | [], _, lastAt, viols => (lastAt, viols)
  | c :: rest, count, lastAt, viols =>
    if c = '/' ∨ c = '?' ∨ c = '#' then (lastAt, viols)
    else if c = '\\' ∧ special = true then (lastAt, viols)
    else if c = '@' then
      userinfoScan special rest (count + 1) (some (count, rest))
        (viols ++ [if lastAt.isSome then SyntaxViolation.UnencodedAtSign
                   else SyntaxViolation.EmbeddedCredentials])
    else userinfoScan special rest (count + 1) lastAt viols

/-- The userinfo-encoding loop of `Parser::parse_userinfo` (`parser.rs` lines
924-943), consuming `count` characters.  Returns (state, username_end,
has_username, has_password). -/
def userinfoEncode :
    Nat → List Char → Pst → Option Nat → Bool → Bool → Pst × Option Nat × Bool × Bool
  | 0, _, st, username_end, has_username, has_password =>
    (st, username_end, has_username, has_password)
  | _ + 1, [], st, username_end, has_username, has_password =>
    (st, username_end, has_username, has_password)
  | count + 1, c :: rest, st, username_end, has_username, has_password =>
    if c = ':' ∧ username_end = none then
      if 0 < count then
        userinfoEncode count rest (st.push [':']) (some st.serialization.length)
          has_username true
      else
        userinfoEncode count rest st (some st.serialization.length) has_username has_password
    else
      userinfoEncode count rest
        ((st.addViols (check_url_code_point c rest)).push (encodeCharWith USERINFO c))
        username_end (if has_password then has_username else true) has_password

/-- `Parser::parse_userinfo` (`parser.rs` lines 880-952).  Returns
(username_end, remaining input). -/
def parse_userinfo (scheme_type : SchemeType) (st : Pst) (input : List Char) :
    Pst × Except ParseError (Nat × List Char) :=
  match userinfoScan scheme_type.is_special input 0 none [] with
  | (lastAt, viols) =>
    let st1 := st.addViols viols
    match lastAt with
    | none =>
      match to_u32 st1.serialization.length with
      | Except.error e => (st1, Except.error e)
      | Except.ok n => (st1, Except.ok (n, input))
    | some (0, remaining) =>
      match remaining.head? with
      | some c =>
        if c = '/' ∨ c = '?' ∨ c = '#' ∨ (scheme_type.is_special = true ∧ c = '\\') then
          (st1, Except.error ParseError.EmptyHost)
        else
          match to_u32 st1.serialization.length with
          | Except.error e => (st1, Except.error e)
          | Except.ok n => (st1, Except.ok (n, remaining))
      | none =>
        match to_u32 st1.serialization.length with
        | Except.error e => (st1, Except.error e)
        | Except.ok n => (st1, Except.ok (n, remaining))
    | some (count + 1, remaining) =>
      match userinfoEncode (count + 1) input st1 none false false with
      | (st2, username_end, has_username, has_password) =>
        let st3 := if has_username = true ∨ has_password = true then st2.push ['@'] else st2
        match username_end with
        | some ue =>
          match to_u32 ue with
          | Except.error e => (st2, Except.error e)
          | Except.ok ue2 => (st3, Except.ok (ue2, remaining))
        | none =>
          match to_u32 st2.serialization.length with
          | Except.error e => (st2, Except.error e)
          | Except.ok ue2 => (st3, Except.ok (ue2, remaining))

/-- `Parser::after_double_slash` (`parser.rs` lines 844-877). -/
def after_double_slash (scheme_type : SchemeType) (context : Context)
    (override : Option (List Char → List (Fin 256))) (scheme_end : Nat) (st : Pst)
    (input : List Char) : Pst × Except ParseError Url :=
  let st0 := st.push ['/', '/']
  let before_authority := st0.serialization.length
  match parse_userinfo scheme_type st0 input with
  | (st1, Except.error e) => (st1, Except.error e)
  | (st1, Except.ok (username_end, remaining)) =>
    let has_authority := decide (before_authority ≠ st1.serialization.length)
    match to_u32 st1.serialization.length with
    | Except.error e => (st1, Except.error e)
    | Except.ok host_start =>
      match parse_host_and_port st1.serialization scheme_end scheme_type context remaining with
      | Except.error e => (st1, Except.error e)
      | Except.ok (ser2, host_end, host, port, remaining2) =>
        let st2 := { st1 with serialization := ser2 }
        if host = HostInternal.None ∧ has_authority = true then
          (st2, Except.error ParseError.EmptyHost)
        else
          match to_u32 st2.serialization.length with
          | Except.error e => (st2, Except.error e)
          | Except.ok path_start =>
            match parse_path_start scheme_type context true st2 remaining2 with
            | (st3, _, remaining3) =>
              with_query_and_fragment scheme_type context override scheme_end username_end
                host_start host_end host port path_start st3 remaining3

/-- `Parser::parse_file_host` (`parser.rs` lines 1057-1080).  Modelled from the
spec where it uses `Host::parse_cow`: canonicalization is the identity and
`localhost` collapses to no host.  Returns (state, has_host, host, remaining). -/
def parse_file_host (st : Pst) (input : List Char) :
    Pst × Bool × HostInternal × List Char :=
  match fileHostScan input with
  | (host_str, remaining) =>
    if is_windows_drive_letter host_str = true then (st, false, HostInternal.None, input)
    else if host_str = [] then (st, false, HostInternal.None, remaining)
    else if host_str = ['l','o','c','a','l','h','o','s','t'] then
      (st, false, HostInternal.None, remaining)
    else (st.push host_str, true, HostInternal.Domain, remaining)

/-- `Parser::parse_file` (`parser.rs` lines 512-721). -/
def parse_file (scheme_type : SchemeType) (context : Context)
    (override : Option (List Char → List (Fin 256))) (base_file_url : Option Url)
    (st : Pst) (input : List Char) : Pst × Except ParseError Url :=
  let first_char := input.head?
  let input_after_first_char := input.tail
  if first_char = some '/' ∨ first_char = some '\\' then
    let stA := st.logIf SyntaxViolation.Backslash (decide (first_char = some '\\'))
    let next_char := input_after_first_char.head?
    let input_after_next_char := input_after_first_char.tail
    if next_char = some '/' ∨ next_char = some '\\' then
      let stB := (stA.logIf SyntaxViolation.Backslash
        (decide (next_char = some '\\'))).push ['f','i','l','e',':','/','/']
      match parse_file_host stB input_after_next_char with
      | (stC, has_host0, host0, remaining) =>
        match to_u32 stC.serialization.length with
        | Except.error e => (stC, Except.error e)
        | Except.ok host_end0 =>
          let has_host1 := decide (host0 ≠ HostInternal.None)
          match
            (if has_host0 = true then
              parse_path_start SchemeType.File context has_host1 stC remaining
            else
              parse_path SchemeType.File context has_host1 stC.serialization.length
                (stC.push ['/']) remaining)
          with
          | (stD, has_host2, remaining2) =>
            match
              (if has_host2 = false then
                ({ stD with serialization :=
                    stD.serialization.take 7 ++ stD.serialization.drop host_end0 },
                  7, HostInternal.None)
              else (stD, host_end0, host0))
            with
            | (stE, host_end, host) =>
              match parse_query_and_fragment scheme_type 4 context override stE remaining2
              with
              | (stF, Except.error e) => (stF, Except.error e)
              | (stF, Except.ok (query_start, fragment_start)) =>
                (stF, Except.ok {
                  serialization := stF.serialization, scheme_end := 4, username_end := 7,
                  host_start := 7, host_end := host_end, host := host, port := none,
                  path_start := host_end, query_start := query_start,
                  fragment_start := fragment_start })
    else
      let stB := stA.push ['f','i','l','e',':','/','/']
      match
        (if starts_with_windows_drive_letter_segment input_after_first_char = false then
          match base_file_url with
          | some base =>
            if is_normalized_windows_drive_letter base.first_path_segment = true then
              ((stB.push ['/']).push base.first_path_segment, 7, HostInternal.None)
            else
              match base.host_str with
              | some host_str =>
                ((stB.push host_str), (stB.push host_str).serialization.length, base.host)
              | none => (stB, 7, HostInternal.None)
          | none => (stB, 7, HostInternal.None)
        else (stB, 7, HostInternal.None))
      with
      | (stC, host_end, host) =>
        let parse_path_input :=
          match first_char with
          | some c =>
            if c = '/' ∨ c = '\\' ∨ c = '?' ∨ c = '#' then input
            else input_after_first_char
          | none => input_after_first_char
        match parse_path SchemeType.File context false host_end stC parse_path_input with
        | (stD, _, remaining) =>
          match parse_query_and_fragment scheme_type 4 context override stD remaining with
          | (stE, Except.error e) => (stE, Except.error e)
          | (stE, Except.ok (query_start, fragment_start)) =>
            (stE, Except.ok {
              serialization := stE.serialization, scheme_end := 4, username_end := 7,
              host_start := 7, host_end := host_end, host := host, port := none,
              path_start := host_end, query_start := query_start,
              fragment_start := fragment_start })
  else
    match base_file_url with
    | some base =>
      match first_char with
      | none =>
        let st1 := st.push base.before_fragment
        (st1, Except.ok { base with
          serialization := st1.serialization
          fragment_start := none })
      | some c =>
        if c = '?' then
          let st1 := st.push base.before_query
          match parse_query_and_fragment scheme_type base.scheme_end context override st1
              input with
          | (st2, Except.error e) => (st2, Except.error e)
          | (st2, Except.ok (query_start, fragment_start)) =>
            (st2, Except.ok { base with
              serialization := st2.serialization
              query_start := query_start
              fragment_start := fragment_start })
        else if c = '#' then fragment_only base st input
        else
          if starts_with_windows_drive_letter_segment input = false then
            let st1 := st.push base.before_query
            let st2 := { st1 with
              serialization :=
                shorten_path SchemeType.File base.path_start st1.serialization }
            match parse_path SchemeType.File context true base.path_start st2 input with
            | (st3, _, remaining) =>
              with_query_and_fragment SchemeType.File context override base.scheme_end
                base.username_end base.host_start base.host_end base.host base.port
                base.path_start st3 remaining
          else
            let st1 := st.push ['f','i','l','e',':','/','/','/']
            match parse_path SchemeType.File context false 7 st1 input with
            | (st2, _, remaining) =>
              match parse_query_and_fragment SchemeType.File 4 context override st2
                  remaining with
              | (st3, Except.error e) => (st3, Except.error e)
              | (st3, Except.ok (query_start, fragment_start)) =>
                (st3, Except.ok {
                  serialization := st3.serialization, scheme_end := 4, username_end := 7,
                  host_start := 7, host_end := 7, host := HostInternal.None, port := none,
                  path_start := 7, query_start := query_start,
                  fragment_start := fragment_start })
    | none =>
      let st1 := st.push ['f','i','l','e',':','/','/','/']
      match parse_path SchemeType.File context false 7 st1 input with
      | (st2, _, remaining) =>
        match parse_query_and_fragment SchemeType.File 4 context override st2 remaining with
        | (st3, Except.error e) => (st3, Except.error e)
        | (st3, Except.ok (query_start, fragment_start)) =>
          (st3, Except.ok {
            serialization := st3.serialization, scheme_end := 4, username_end := 7,
            host_start := 7, host_end := 7, host := HostInternal.None, port := none,
            path_start := 7, query_start := query_start, fragment_start := fragment_start })

/-- `Parser::parse_relative` (`parser.rs` lines 723-842). -/
def parse_relative (scheme_type : SchemeType) (context : Context)
    (override : Option (List Char → List (Fin 256))) (base : Url) (st : Pst)
    (input : List Char) : Pst × Except ParseError Url :=
  match input.head? with
  | none =>
    let st1 := st.push base.before_fragment
    (st1, Except.ok { base with serialization := st1.serialization, fragment_start := none })
  | some c =>
    if c = '?' then
      let st1 := st.push base.before_query
      match parse_query_and_fragment scheme_type base.scheme_end context override st1 input
      with
      | (st2, Except.error e) => (st2, Except.error e)
      | (st2, Except.ok (query_start, fragment_start)) =>
        (st2, Except.ok { base with
          serialization := st2.serialization
          query_start := query_start
          fragment_start := fragment_start })
    else if c = '#' then fragment_only base st input
    else if c = '/' ∨ c = '\\' then
      let slashes := input.takeWhile (fun x => x = '/' ∨ x = '\\')
      let remaining := input.dropWhile (fun x => x = '/' ∨ x = '\\')
      if 2 ≤ slashes.length then
        let st1 := (st.logIf SyntaxViolation.ExpectedDoubleSlash
            (decide (slashes ≠ ['/', '/']))).push
          (base.serialization.take (base.scheme_end + 1))
        if input.take 2 = ['/', '/'] then
          after_double_slash scheme_type context override base.scheme_end st1 (input.drop 2)
        else
          after_double_slash scheme_type context override base.scheme_end st1 remaining
      else
        let st1 := (st.push (base.serialization.take base.path_start)).push ['/']
        match parse_path scheme_type context true base.path_start st1 input.tail with
        | (st2, _, remaining2) =>
          with_query_and_fragment scheme_type context override base.scheme_end
            base.username_end base.host_start base.host_end base.host base.port
            base.path_start st2 remaining2
    else
      let st1 := st.push base.before_query
      let st2 := { st1 with
        serialization := pop_path scheme_type base.path_start st1.serialization }
      let st3 :=
        if st2.serialization.length = base.path_start
            ∧ ((schemeTypeOf base.scheme).is_special = true ∨ input ≠ []) then
          st2.push ['/']
        else st2
      match parse_path scheme_type context true base.path_start st3 input with
      | (st4, _, remaining2) =>
        with_query_and_fragment scheme_type context override base.scheme_end
          base.username_end base.host_start base.host_end base.host base.port
          base.path_start st4 remaining2

/-- `Parser::parse_non_special` (`parser.rs` lines 476-510). -/
def parse_non_special (scheme_type : SchemeType) (context : Context)
    (override : Option (List Char → List (Fin 256))) (scheme_end : Nat) (st : Pst)
    (input : List Char) : Pst × Except ParseError Url :=
  if input.take 2 = ['/', '/'] then
    after_double_slash scheme_type context override scheme_end st (input.drop 2)
  else
    match to_u32 st.serialization.length with
    | Except.error e => (st, Except.error e)
    | Except.ok path_start =>
      match
        (match input.head? with
         | some c =>
           if c = '/' then
             match parse_path scheme_type context false path_start (st.push ['/'])
                 input.tail with
             | (st1, _, remaining) => (st1, remaining)
           else parse_cannot_be_a_base_path context st input
         | none => parse_cannot_be_a_base_path context st input)
      with
      | (st1, remaining) =>
        with_query_and_fragment scheme_type context override scheme_end path_start
          path_start path_start HostInternal.None none path_start st1 remaining

/-- `Parser::parse_with_scheme` (`parser.rs` lines 430-473). -/
def parse_with_scheme (context : Context) (override : Option (List Char → List (Fin 256)))
    (base : Option Url) (st : Pst) (input : List Char) : Pst × Except ParseError Url :=
  match to_u32 st.serialization.length with
  | Except.error e => (st, Except.error e)
  | Except.ok scheme_end =>
    let scheme_type := schemeTypeOf st.serialization
    let st1 := st.push [':']
    match scheme_type with
    | SchemeType.File =>
      let st2 := st1.logIf SyntaxViolation.ExpectedFileDoubleSlash
        (decide (input.take 2 ≠ ['/', '/']))
      let base_file_url :=
        match base with
        | some b => if b.scheme = ['f','i','l','e'] then some b else none
        | none => none
      parse_file scheme_type context override base_file_url
        { st2 with serialization := [] } input
    | SchemeType.SpecialNotFile =>
      let slashes := input.takeWhile (fun x => x = '/' ∨ x = '\\')
      let remaining := input.dropWhile (fun x => x = '/' ∨ x = '\\')
      let relative :=
        match base with
        | some b =>
          if slashes.length < 2 ∧ b.scheme = st1.serialization.take scheme_end then some b
          else none
        | none => none
      match relative with
      | some b =>
        parse_relative scheme_type context override b { st1 with serialization := [] } input
      | none =>
        let st2 := st1.logIf SyntaxViolation.ExpectedDoubleSlash
          (decide (slashes ≠ ['/', '/']))
        after_double_slash scheme_type context override scheme_end st2 remaining
    | SchemeType.NotSpecial =>
      parse_non_special scheme_type context override scheme_end st1 input

/-- The violations `Input::new_trim_c0_control_and_space` reports (`parser.rs`
lines 226-243), with the trimmed text. -/
def inputNewTrimViols (raw : List Char) : List SyntaxViolation × List Char :=
  let trimmed := trimMatches c0_control_or_space raw
  ((if trimmed.length < raw.length then [SyntaxViolation.C0SpaceIgnored] else [])
    ++ (if trimmed.any ascii_tab_or_new_line then [SyntaxViolation.TabOrNewlineIgnored]
        else []),
    trimmed)

/-- `Parser::parse_url` (`parser.rs` lines 379-402): trim and report the input
violations, then dispatch on the scheme.  The final violation list is the
construction-time violations followed by those of the chosen branch. -/
def parse_url (context : Context) (override : Option (List Char → List (Fin 256)))
    (base : Option Url) (raw : List Char) :
    Except ParseError Url × List SyntaxViolation :=
  match inputNewTrimViols raw with
  | (viols0, trimmed) =>
    let input := stripTabNl trimmed
    let st0 : Pst := { serialization := [], violations := [] }
    let result :=
      match parse_scheme context input with
      | (some remaining, ser) =>
        parse_with_scheme context override base { st0 with serialization := ser } remaining
      | (none, _) =>
        match base with
        | some base_url =>
          if input.head? = some '#' then fragment_only base_url st0 input
          else if base_url.cannot_be_a_base = true then
            (st0, Except.error ParseError.RelativeUrlWithCannotBeABaseBase)
          else
            let scheme_type := schemeTypeOf base_url.scheme
            if scheme_type.is_file = true then
              parse_file scheme_type context override (some base_url) st0 input
            else parse_relative scheme_type context override base_url st0 input
        | none => (st0, Except.error ParseError.RelativeUrlWithoutBase)
    (result.2, viols0 ++ result.1.violations)


/-- No character is ASCII tab, LF or CR. -/
def tabFree (l : List Char) : Prop :=
  ∀ c ∈ l, ascii_tab_or_new_line c = false

/-- A successful parse result has a tab/LF/CR-free serialization. -/
def resultTabFree : Except ParseError Url → Prop
  | Except.ok u => tabFree u.serialization
  | Except.error _ => True

/-! # Theorems

## Shared helper lemmas for the percent codec -/

theorem percent_encode_byte_spec :
    ∀ b < 256, percent_encode_byte b = [37, hexUpperDigit (b / 16), hexUpperDigit (b % 16)] := by
  decide

theorem to_digit16_hexUpperDigit : ∀ n < 16, to_digit16 (hexUpperDigit n) = some n := by
  decide

theorem percent_decode_cons_ne (b : Nat) (t : List Nat) (hb : b ≠ 37) :
    percent_decode (b :: t) = b :: percent_decode t := by
  rcases t with _ | ⟨x, _ | ⟨y, t⟩⟩ <;> simp [percent_decode, hb]

theorem percent_decode_triple (h l : Nat) (t : List Nat) (hv lv : Nat)
    (hh : to_digit16 h = some hv) (hl : to_digit16 l = some lv) :
    percent_decode (37 :: h :: l :: t) = (hv * 16 + lv) :: percent_decode t := by
  simp [percent_decode, hh, hl]

theorem percentEncodeAux_flatten (s : AsciiSet) (B : List Nat) :
    ∀ run, (percentEncodeAux s run B).flatten
      = run ++ (B.map (fun b =>
          if s.shouldPercentEncode b then percent_encode_byte b else [b])).flatten := by
  induction B with
  | nil => intro run; rcases run with _ | ⟨r, rs⟩ <;> simp [percentEncodeAux]
  | cons b rest ih =>
    intro run
    by_cases hb : s.shouldPercentEncode b = true
    · rcases run with _ | ⟨r, rs⟩ <;> simp [percentEncodeAux, hb, ih]
    · simp [percentEncodeAux, hb, ih]

theorem percent_decode_flat_map (s : AsciiSet) (hpct : s.shouldPercentEncode 37 = true) :
    ∀ B : List Nat, (∀ b ∈ B, b < 256) →
      percent_decode ((B.map (fun b =>
        if s.shouldPercentEncode b then percent_encode_byte b else [b])).flatten) = B := by
  intro B
  induction B with
  | nil => intro _; simp [percent_decode]
  | cons b rest ih =>
    intro h256
    have hb : b < 256 := h256 b (by simp)
    have hrest : ∀ x ∈ rest, x < 256 := fun x hx => h256 x (by simp [hx])
    by_cases hs : s.shouldPercentEncode b = true
    · rw [List.map_cons, List.flatten_cons, if_pos hs, percent_encode_byte_spec b hb,
        List.cons_append, List.cons_append, List.cons_append, List.nil_append,
        percent_decode_triple _ _ _ _ _
          (to_digit16_hexUpperDigit _ (by omega)) (to_digit16_hexUpperDigit _ (by omega)),
        ih hrest]
      congr 1
      omega
    · have hb37 : b ≠ 37 := by
        intro e
        rw [e, hpct] at hs
        exact hs rfl
      rw [List.map_cons, List.flatten_cons, if_neg hs, List.singleton_append,
        percent_decode_cons_ne b _ hb37, ih hrest]

/-! ## C1: encode/decode round-trip -/

/-- **C1** counterexample: with a set that does not encode `%` the round-trip fails.
Encoding the bytes of `"%41"` under `EMPTY` leaves them unchanged, and decoding
yields `[0x41]`, not the original bytes. -/
theorem C1_roundtrip_cex :
    percent_decode ((percentEncodeList EMPTY [37, 52, 49]).flatten) ≠ [37, 52, 49] := by
  decide

/-- **C1** (amended): for every byte sequence `B` (bytes `< 256`) and every `AsciiSet`
that percent-encodes the `%` byte itself, percent-decoding the concatenation of the
fragments yielded by `percent_encode(B, S)` yields exactly `B`. -/
theorem C1_roundtrip (s : AsciiSet) (B : List Nat)
    (h256 : ∀ b ∈ B, b < 256) (hpct : s.shouldPercentEncode 37 = true) :
    percent_decode ((percentEncodeList s B).flatten) = B := by
  rw [percentEncodeList, percentEncodeAux_flatten]
  simpa using percent_decode_flat_map s hpct B h256

theorem C1_roundtrip_witness :
    (∀ b ∈ [102, 37, 200], b < 256)
      ∧ NON_ALPHANUMERIC.shouldPercentEncode 37 = true
      ∧ percent_decode ((percentEncodeList NON_ALPHANUMERIC [102, 37, 200]).flatten)
          = [102, 37, 200] :=
  ⟨by decide, by decide, C1_roundtrip _ _ (by decide) (by decide)⟩

/-! ## C7: the byte table -/

/-- **C7**: for every byte `b`, `percent_encode_byte b` is exactly `%` followed by the
two-digit uppercase hexadecimal representation of `b`. -/
theorem C7_percent_encode_byte (b : Fin 256) :
    percent_encode_byte b.val
      = [37, hexUpperDigit (b.val / 16), hexUpperDigit (b.val % 16)] := by
  revert b
  decide

/-! ## C5: borrow preservation of the `Cow` materializers -/

theorem percentEncodeNext_isNone (s : AsciiSet) (B : List Nat) :
    (percentEncodeNext s B).isNone = B.isEmpty := by
  cases B with
  | nil => simp [percentEncodeNext]
  | cons b rest =>
    by_cases hb : s.shouldPercentEncode b = true <;> simp [percentEncodeNext, hb]

theorem percent_decode_triple_fail (h l : Nat) (t : List Nat)
    (hne : ¬((to_digit16 h).isSome && (to_digit16 l).isSome) = true) :
    percent_decode (37 :: h :: l :: t) = 37 :: percent_decode (h :: l :: t) := by
  rcases hh : to_digit16 h with _ | hv
  · simp [percent_decode, hh]
  · rcases hl : to_digit16 l with _ | lv
    · simp [percent_decode, hh, hl]
    · exact absurd (by simp [hh, hl]) hne

theorem percent_decode_length_le : ∀ l : List Nat, (percent_decode l).length ≤ l.length := by
  intro l
  induction l using percent_decode.induct with
  | case1 => simp [percent_decode]
  | case2 b => simp [percent_decode]
  | case3 b x ih => simp [percent_decode]
  | case4 h l rest2 hv lv hl hh ih =>
    rw [percent_decode_triple _ _ _ _ _ hh hl]
    simp only [List.length_cons] at ih ⊢
    omega
  | case5 h l rest2 hne ih =>
    have hne' : ¬((to_digit16 h).isSome && (to_digit16 l).isSome) = true := by
      simp only [Bool.and_eq_true, Option.isSome_iff_exists]
      rintro ⟨⟨hv, hh⟩, ⟨lv, hl⟩⟩
      exact hne hv lv hh hl
    rw [percent_decode_triple_fail _ _ _ hne']
    simp only [List.length_cons] at ih ⊢
    omega
  | case6 b h l rest2 hb ih =>
    rw [percent_decode_cons_ne b _ hb]
    simp only [List.length_cons] at ih ⊢
    omega

theorem if_any_eq_false_iff : ∀ B : List Nat, if_any B = false ↔ percent_decode B = B := by
  intro B
  induction B using if_any.induct with
  | case1 => simp [if_any, percent_decode]
  | case2 b => simp [if_any, percent_decode]
  | case3 b x ih => simp [if_any, percent_decode]
  | case4 h l rest2 hhex =>
    obtain ⟨⟨hv, hh⟩, lv, hl⟩ :
        (∃ v, to_digit16 h = some v) ∧ ∃ v, to_digit16 l = some v := by
      simpa [Option.isSome_iff_exists] using hhex
    have hany : if_any (37 :: h :: l :: rest2) = true := by
      simp [if_any, hhex]
    have hlen := percent_decode_length_le rest2
    rw [hany, percent_decode_triple _ _ _ _ _ hh hl]
    constructor
    · intro hc
      exact absurd hc (by simp)
    · intro heq
      exfalso
      have hlength := congrArg List.length heq
      simp only [List.length_cons] at hlength
      omega
  | case5 h l rest2 hhex ih =>
    have hany : if_any (37 :: h :: l :: rest2) = if_any (h :: l :: rest2) := by
      simp [if_any, hhex]
    rw [hany, percent_decode_triple_fail _ _ _ hhex, ih]
    simp
  | case6 b h l rest2 hb ih =>
    have hany : if_any (b :: h :: l :: rest2) = if_any (h :: l :: rest2) := by
      simp [if_any, hb]
    rw [hany, percent_decode_cons_ne b _ hb, ih]
    simp

/-- **C5** counterexample: encoding the single byte `0x00` under `CONTROLS` produces the
single static fragment `"%00"`, which materializes as `Cow::Borrowed` even though the
byte satisfies `should_percent_encode`. -/
theorem C5_borrow_cex :
    ¬ (percentEncodeIsBorrowed CONTROLS [0] = true ↔
        ∀ b ∈ ([0] : List Nat), ¬ CONTROLS.shouldPercentEncode b = true) := by
  decide

/-- **C5** (amended): materializing the encoder is borrowed exactly when it yields at
most one fragment — when no byte of `B` is encoded (the fragment borrows the input) or
when `B` is a single encoded byte (the fragment borrows the static `%HH` table).
Materializing the decoder is borrowed exactly when decoding leaves the input
unchanged, i.e. no `%HH` triple was decoded. -/
theorem C5_borrow (s : AsciiSet) (B : List Nat) :
    (percentEncodeIsBorrowed s B = true ↔
      ((∀ b ∈ B, ¬ s.shouldPercentEncode b = true) ∨
        ∃ b, B = [b] ∧ s.shouldPercentEncode b = true))
    ∧ (percentDecodeIsBorrowed B = true ↔ percent_decode B = B) := by
  constructor
  · cases B with
    | nil => simp [percentEncodeIsBorrowed, percentEncodeNext]
    | cons b rest =>
      by_cases hb : s.shouldPercentEncode b = true
      · have hnext : percentEncodeNext s (b :: rest) = some (percent_encode_byte b, rest) := by
          simp [percentEncodeNext, hb]
        have h1 : percentEncodeIsBorrowed s (b :: rest) = rest.isEmpty := by
          unfold percentEncodeIsBorrowed
          rw [hnext]
          exact percentEncodeNext_isNone s rest
        rw [h1, List.isEmpty_iff]
        constructor
        · intro h
          subst h
          exact Or.inr ⟨b, rfl, hb⟩
        · rintro (hall | ⟨b', he, _⟩)
          · exact absurd hb (hall b (by simp))
          · simp only [List.cons.injEq] at he
            exact he.2
      · have hnext : percentEncodeNext s (b :: rest)
            = some (b :: rest.takeWhile (fun x => !s.shouldPercentEncode x),
                rest.dropWhile (fun x => !s.shouldPercentEncode x)) := by
          simp [percentEncodeNext, hb]
        have h1 : percentEncodeIsBorrowed s (b :: rest)
            = (rest.dropWhile (fun x => !s.shouldPercentEncode x)).isEmpty := by
          unfold percentEncodeIsBorrowed
          rw [hnext]
          exact percentEncodeNext_isNone s _
        rw [h1, List.isEmpty_iff, List.dropWhile_eq_nil_iff]
        constructor
        · intro hall
          left
          intro x hx
          rcases List.mem_cons.mp hx with rfl | hx
          · exact hb
          · simpa using hall x hx
        · rintro (hall | ⟨b', he, hs'⟩)
          · intro x hx
            simpa using hall x (List.mem_cons_of_mem _ hx)
          · simp only [List.cons.injEq] at he
            exact absurd (he.1 ▸ hs') hb
  · constructor
    · intro hborrow
      refine (if_any_eq_false_iff B).mp ?_
      simpa [percentDecodeIsBorrowed] using hborrow
    · intro heq
      simpa [percentDecodeIsBorrowed] using (if_any_eq_false_iff B).mpr heq

/-! ## C6: iterator size hints -/

/-- **C6** counterexample: with 2 remaining bytes the decoder's size hint has lower
bound `(2+2)/3 = 1` (floor), not `⌈(2+2)/3⌉ = 2` as claimed. -/
theorem C6_size_hint_cex :
    percentDecodeSizeHint [48, 49] ≠ ((2 + 2) ⌈/⌉ 3, some 2) := by
  have h : (2 + 2) ⌈/⌉ 3 = 2 := by simp [Nat.ceilDiv_eq_add_pred_div]
  simp [percentDecodeSizeHint, h]

/-- **C6** (amended): the encoder's size hint is `(0, 0)` on empty remaining input and
`(1, n)` otherwise; the decoder's size hint is `(⌈n/3⌉, n)` — the code's
`(n + 2) / 3` in floor division, not `⌈(n+2)/3⌉`. -/
theorem C6_size_hint (B : List Nat) :
    percentEncodeSizeHint B = (if B.length = 0 then (0, some 0) else (1, some B.length))
    ∧ percentDecodeSizeHint B = (B.length ⌈/⌉ 3, some B.length) := by
  constructor
  · cases B <;> simp [percentEncodeSizeHint]
  · simp [percentDecodeSizeHint, Nat.ceilDiv_eq_add_pred_div]

/-! ## C9: strict and lossy UTF-8 decoding agree on success -/

theorem utf8Lossy_eq_of_decodeAll :
    ∀ (l : List Nat) (cs : List Nat), utf8DecodeAll l = some cs → utf8Lossy l = cs := by
  intro l
  induction l using utf8DecodeAll.induct with
  | case1 =>
    intro cs h
    simp [utf8DecodeAll] at h
    simp [utf8Lossy, ← h]
  | case2 b h1 =>
    intro cs h
    simp [utf8DecodeAll, h1] at h
    simp [utf8Lossy, h1, ← h]
  | case3 b h1 =>
    intro cs h
    simp [utf8DecodeAll, h1] at h
  | case4 b c1 h1 ih =>
    intro cs h
    simp only [utf8DecodeAll, if_pos h1] at h
    obtain ⟨cs', hd, rfl⟩ := Option.map_eq_some'.mp h
    have hsub := ih _ hd
    simp only [utf8Lossy] at hsub
    simp [utf8Lossy, h1, hsub]
  | case5 b c1 h1 h2 h3 =>
    intro cs h
    simp [utf8DecodeAll, h1, h2, h3] at h
    simp [utf8Lossy, h1, h2, h3, ← h]
  | case6 b c1 h1 h2 h3 =>
    intro cs h
    simp [utf8DecodeAll, h1, h2, h3] at h
  | case7 b c1 h1 h2 =>
    intro cs h
    simp [utf8DecodeAll, h1, h2] at h
  | case8 b c1 c2 h1 ih =>
    intro cs h
    simp only [utf8DecodeAll, if_pos h1] at h
    obtain ⟨cs', hd, rfl⟩ := Option.map_eq_some'.mp h
    have hsub := ih _ hd
    simp only [utf8Lossy] at hsub
    simp [utf8Lossy, h1, hsub]
  | case9 b c1 c2 h1 h2 h3 ih =>
    intro cs h
    simp only [utf8DecodeAll, if_neg h1, if_pos h2, if_pos h3] at h
    obtain ⟨cs', hd, rfl⟩ := Option.map_eq_some'.mp h
    have hsub := ih _ hd
    simp only [utf8Lossy] at hsub
    simp [utf8Lossy, h1, h2, h3, hsub]
  | case10 b c1 c2 h1 h2 h3 =>
    intro cs h
    simp [utf8DecodeAll, h1, h2, h3] at h
  | case11 b c1 c2 h1 h2 h3 h4 =>
    intro cs h
    simp [utf8DecodeAll, h1, h2, h3, h4] at h
    simp [utf8Lossy, h1, h2, h3, h4.1, h4.2, ← h]
  | case12 b c1 c2 h1 h2 h3 h4 =>
    intro cs h
    simp [utf8DecodeAll, h1, h2, h3, h4] at h
  | case13 b c1 c2 h1 h2 h3 =>
    intro cs h
    simp [utf8DecodeAll, h1, h2, h3] at h
  | case14 b c1 c2 c3 r h1 ih =>
    intro cs h
    simp only [utf8DecodeAll, if_pos h1] at h
    obtain ⟨cs', hd, rfl⟩ := Option.map_eq_some'.mp h
    have hsub := ih _ hd
    simp only [utf8Lossy] at hsub
    simp [utf8Lossy, h1, hsub]
  | case15 b c1 c2 c3 r h1 h2 h3 ih =>
    intro cs h
    simp only [utf8DecodeAll, if_neg h1, if_pos h2, if_pos h3] at h
    obtain ⟨cs', hd, rfl⟩ := Option.map_eq_some'.mp h
    have hsub := ih _ hd
    simp only [utf8Lossy] at hsub
    simp [utf8Lossy, h1, h2, h3, hsub]
  | case16 b c1 c2 c3 r h1 h2 h3 =>
    intro cs h
    simp [utf8DecodeAll, h1, h2, h3] at h
  | case17 b c1 c2 c3 r h1 h2 h3 h4 ih =>
    intro cs h
    simp only [utf8DecodeAll, if_neg h1, if_neg h2, if_pos h3, if_pos h4] at h
    obtain ⟨cs', hd, rfl⟩ := Option.map_eq_some'.mp h
    have hsub := ih _ hd
    simp only [utf8Lossy] at hsub
    simp [utf8Lossy, h1, h2, h3, h4.1, h4.2, hsub]
  | case18 b c1 c2 c3 r h1 h2 h3 h4 =>
    intro cs h
    simp [utf8DecodeAll, h1, h2, h3, h4] at h
  | case19 b c1 c2 c3 r h1 h2 h3 h4 h5 ih =>
    intro cs h
    simp only [utf8DecodeAll, if_neg h1, if_neg h2, if_neg h3, if_pos h4, if_pos h5] at h
    obtain ⟨cs', hd, rfl⟩ := Option.map_eq_some'.mp h
    have hsub := ih _ hd
    simp only [utf8Lossy] at hsub
    simp [utf8Lossy, h1, h2, h3, h4, h5.1, h5.2.1, h5.2.2, hsub]
  | case20 b c1 c2 c3 r h1 h2 h3 h4 h5 =>
    intro cs h
    simp [utf8DecodeAll, h1, h2, h3, h4, h5] at h
  | case21 b c1 c2 c3 r h1 h2 h3 h4 =>
    intro cs h
    simp [utf8DecodeAll, h1, h2, h3, h4] at h

/-- **C9**: whenever the strict UTF-8 decoder of the percent-decoded bytes succeeds,
the lossy decoder returns the same scalar-value sequence. -/
theorem C9_decode_utf8_agree (B cs : List Nat) (h : decode_utf8 B = some cs) :
    decode_utf8_lossy B = cs :=
  utf8Lossy_eq_of_decodeAll (percent_decode B) cs h

theorem C9_decode_utf8_agree_witness :
    decode_utf8 [37, 52, 49] = some [65] ∧ decode_utf8_lossy [37, 52, 49] = [65] :=
  ⟨by decide, C9_decode_utf8_agree _ _ (by decide)⟩

/-! ## Character facts -/

theorem char_eq_iff (a b : Char) : a = b ↔ a.toNat = b.toNat :=
  ⟨fun h => by rw [h], fun h => Char.eq_of_val_eq (UInt32.toNat.inj h)⟩

theorem char_ofNat_toNat (n : Nat) (h : n < 55296) : (Char.ofNat n).toNat = n := by
  unfold Char.ofNat
  rw [dif_pos (Or.inl h)]
  rfl

theorem char_isDigit_iff (c : Char) : c.isDigit = true ↔ 48 ≤ c.toNat ∧ c.toNat ≤ 57 := by
  simp only [Char.isDigit, Bool.and_eq_true, decide_eq_true_eq]
  exact Iff.rfl

theorem charToLower_of_not_upper (c : Char) (h : ¬ (65 ≤ c.toNat ∧ c.toNat ≤ 90)) :
    charToLower c = c := by
  unfold charToLower
  rw [if_neg (show ¬('A' ≤ c ∧ c ≤ 'Z') from h)]

/-! ## C8: `parse_scheme` in the three contexts -/

theorem parseSchemeLoop_allowed (context : Context) :
    ∀ (input : List Char) (acc : List Char),
      (∀ x ∈ input, ('a' ≤ x ∧ x ≤ 'z') ∨ ('A' ≤ x ∧ x ≤ 'Z') ∨ ('0' ≤ x ∧ x ≤ '9')
          ∨ x = '+' ∨ x = '-' ∨ x = '.') →
      parseSchemeLoop context acc input
        = if context = Context.Setter then (some [], acc ++ input.map charToLower)
          else (none, []) := by
  intro input
  induction input with
  | nil => intro acc _; simp [parseSchemeLoop]
  | cons c rest ih =>
    intro acc hall
    have hrest : ∀ x ∈ rest, ('a' ≤ x ∧ x ≤ 'z') ∨ ('A' ≤ x ∧ x ≤ 'Z') ∨ ('0' ≤ x ∧ x ≤ '9')
        ∨ x = '+' ∨ x = '-' ∨ x = '.' := fun x hx => hall x (by simp [hx])
    rcases hall c (by simp) with h1 | h2 | h3 | h4 | h5 | h6
    · -- lowercase letter
      have hn : 97 ≤ c.toNat ∧ c.toNat ≤ 122 := h1
      have hlow : charToLower c = c := charToLower_of_not_upper c (by omega)
      rw [parseSchemeLoop, if_pos (Or.inl h1), ih _ hrest]
      simp [hlow]
    · -- uppercase letter
      have hn : 65 ≤ c.toNat ∧ c.toNat ≤ 90 := h2
      have hc1 : ¬(('a' ≤ c ∧ c ≤ 'z') ∨ ('0' ≤ c ∧ c ≤ '9')
          ∨ c = '+' ∨ c = '-' ∨ c = '.') := by
        rintro (h | h | rfl | rfl | rfl)
        · have h' : 97 ≤ c.toNat ∧ c.toNat ≤ 122 := h; omega
        · have h' : 48 ≤ c.toNat ∧ c.toNat ≤ 57 := h; omega
        · exact absurd hn (by decide)
        · exact absurd hn (by decide)
        · exact absurd hn (by decide)
      rw [parseSchemeLoop, if_neg hc1, if_pos h2, ih _ hrest]
      simp
    · -- digit
      have hn : 48 ≤ c.toNat ∧ c.toNat ≤ 57 := h3
      have hlow : charToLower c = c := charToLower_of_not_upper c (by omega)
      rw [parseSchemeLoop, if_pos (Or.inr (Or.inl h3)), ih _ hrest]
      simp [hlow]
    · -- '+'
      subst h4
      rw [parseSchemeLoop, if_pos (by decide), ih _ hrest]
      simp [show charToLower '+' = '+' from by decide]
    · -- '-'
      subst h5
      rw [parseSchemeLoop, if_pos (by decide), ih _ hrest]
      simp [show charToLower '-' = '-' from by decide]
    · -- '.'
      subst h6
      rw [parseSchemeLoop, if_pos (by decide), ih _ hrest]
      simp [show charToLower '.' = '.' from by decide]

/-- **C8**: on an input that starts with an ASCII letter, whose characters are all in
`[A-Za-z0-9+.-]` and which therefore contains no `:`, `parse_scheme` succeeds in
`Setter` context leaving the lowercased tentative scheme in the serialization, and
fails in `UrlParser` and `PathSegmentSetter` contexts with the serialization
cleared. -/
theorem C8_parse_scheme (c : Char) (rest : List Char)
    (halpha : ascii_alpha c = true)
    (hall : ∀ x ∈ c :: rest, ('a' ≤ x ∧ x ≤ 'z') ∨ ('A' ≤ x ∧ x ≤ 'Z')
        ∨ ('0' ≤ x ∧ x ≤ '9') ∨ x = '+' ∨ x = '-' ∨ x = '.') :
    parse_scheme Context.Setter (c :: rest) = (some [], (c :: rest).map charToLower)
    ∧ parse_scheme Context.UrlParser (c :: rest) = (none, [])
    ∧ parse_scheme Context.PathSegmentSetter (c :: rest) = (none, []) := by
  refine ⟨?_, ?_, ?_⟩ <;>
    · rw [parse_scheme, if_pos halpha, parseSchemeLoop_allowed _ _ _ hall]
      simp

theorem C8_parse_scheme_witness :
    parse_scheme Context.Setter ['A', 'b', '+'] = (some [], ['a', 'b', '+'])
    ∧ parse_scheme Context.UrlParser ['A', 'b', '+'] = (none, [])
    ∧ parse_scheme Context.PathSegmentSetter ['A', 'b', '+'] = (none, []) := by
  have h := C8_parse_scheme 'A' ['b', '+'] (by decide) (by decide)
  rwa [show (['A', 'b', '+'] : List Char).map charToLower = ['a', 'b', '+'] from by decide] at h

/-! ## C10: `parse_port` on digit strings -/

theorem digits_foldl_init_le :
    ∀ (D : List Char) (p : Nat), p ≤ D.foldl (fun a c => a * 10 + (c.toNat - 48)) p := by
  intro D
  induction D with
  | nil => intro p; simp
  | cons c rest ih =>
    intro p
    simp only [List.foldl_cons]
    exact le_trans (by omega) (ih (p * 10 + (c.toNat - 48)))

theorem parsePortLoop_digits (context : Context) :
    ∀ (D : List Char) (port : Nat) (hasDigit : Bool),
      (∀ c ∈ D, c.isDigit = true) →
      D.foldl (fun a c => a * 10 + (c.toNat - 48)) port ≤ 65535 →
      parsePortLoop context port hasDigit D
        = some (D.foldl (fun a c => a * 10 + (c.toNat - 48)) port,
                hasDigit || !D.isEmpty, []) := by
  intro D
  induction D with
  | nil => intro port hasDigit _ _; simp [parsePortLoop]
  | cons c rest ih =>
    intro port hasDigit hdig hle
    have hc : c.isDigit = true := hdig c (by simp)
    simp only [List.foldl_cons] at hle
    have hstep : ¬ (port * 10 + (c.toNat - 48) > 65535) := by
      have := digits_foldl_init_le rest (port * 10 + (c.toNat - 48))
      omega
    rw [parsePortLoop, if_pos hc, if_neg hstep,
      ih _ _ (fun x hx => hdig x (by simp [hx])) hle]
    simp

theorem parse_port_digits (D : List Char) (d : Option Nat)
    (hdig : ∀ c ∈ D, c.isDigit = true) (hle : digitsVal D ≤ 65535) :
    parse_port D d Context.UrlParser
      = Except.ok (if D = [] ∨ some (digitsVal D) = d then none else some (digitsVal D), []) := by
  rw [parse_port, parsePortLoop_digits Context.UrlParser D 0 false hdig hle]
  rcases D with _ | ⟨c, rest⟩
  · simp [digitsVal]
  · simp only [List.isEmpty_cons, Bool.not_false, Bool.or_true, reduceCtorEq, or_false]
    rw [if_neg (by simp)]
    simp [digitsVal]

/-- **C10**: for every non-empty ASCII digit string, possibly with leading zeros, whose
value `v` is at most 65535, `parse_port` in `UrlParser` context returns `Ok`, with port
`Some v` when `v` differs from the supplied default and `None` when it equals it;
leading zeros never cause `InvalidPort` and never change the value. -/
theorem C10_parse_port (D : List Char) (d : Option Nat) (hne : D ≠ [])
    (hdig : ∀ c ∈ D, c.isDigit = true) (hle : digitsVal D ≤ 65535) :
    parse_port D d Context.UrlParser
      = Except.ok (if some (digitsVal D) = d then none else some (digitsVal D), []) := by
  rw [parse_port_digits D d hdig hle]
  simp [hne]

theorem C10_parse_port_witness :
    parse_port ['0', '0', '8', '0'] (some 80) Context.UrlParser = Except.ok (none, [])
    ∧ parse_port ['0', '8', '1'] (some 80) Context.UrlParser = Except.ok (some 81, []) := by
  constructor
  · have h := C10_parse_port ['0', '0', '8', '0'] (some 80) (by decide) (by decide) (by decide)
    rwa [show digitsVal ['0', '0', '8', '0'] = 80 from by decide, if_pos rfl] at h
  · have h := C10_parse_port ['0', '8', '1'] (some 80) (by decide) (by decide) (by decide)
    rwa [show digitsVal ['0', '8', '1'] = 81 from by decide, if_neg (by decide)] at h

/-! ## C3: the anarchist-URL fixup -/

/-- **C3**: when, just before emitting the record, `path_start = scheme_end + 1` and the
serialized path begins with `//`, the fixup inserts `/.` immediately after the scheme
colon and increments `path_start` by exactly 2; afterwards (whatever is appended
later) the serialization never has `://` directly after the scheme. -/
theorem C3_anarchist_fixup (S : List Char) (scheme_end path_start : Nat)
    (hps : path_start = scheme_end + 1)
    (hslash : (S.drop path_start).take 2 = ['/', '/']) :
    anarchistFixup S scheme_end path_start
      = (S.take path_start ++ '/' :: '.' :: S.drop path_start, path_start + 2)
    ∧ ∀ suffix : List Char,
        (((anarchistFixup S scheme_end path_start).1 ++ suffix).drop scheme_end).take 3
          ≠ [':', '/', '/'] := by
  subst hps
  have hfix : anarchistFixup S scheme_end (scheme_end + 1)
      = (S.take (scheme_end + 1) ++ '/' :: '.' :: S.drop (scheme_end + 1),
          scheme_end + 1 + 2) := by
    unfold anarchistFixup
    rw [if_pos rfl, if_pos hslash]
  refine ⟨hfix, ?_⟩
  intro suffix
  rw [hfix]
  have hlen2 : 2 ≤ (S.drop (scheme_end + 1)).length := by
    have h := congrArg List.length hslash
    simp only [List.length_take, List.length_cons, List.length_nil] at h
    omega
  have hlenS : scheme_end + 3 ≤ S.length := by
    simp only [List.length_drop] at hlen2
    omega
  rcases hd : S.drop scheme_end with _ | ⟨y, T⟩
  · exfalso
    have h := congrArg List.length hd
    simp only [List.length_drop, List.length_nil] at h
    omega
  · have h1 : (S.take (scheme_end + 1)).drop scheme_end = [y] := by
      rw [List.drop_take, hd]
      simp
    have h2 : ((S.take (scheme_end + 1) ++ '/' :: '.' :: S.drop (scheme_end + 1)) ++ suffix).drop
          scheme_end
        = y :: '/' :: '.' :: (S.drop (scheme_end + 1) ++ suffix) := by
      rw [List.append_assoc,
        List.drop_append_of_le_length (by rw [List.length_take]; omega), h1]
      simp
    rw [h2]
    simp only [List.take_succ_cons, List.take_zero]
    intro h
    have h3 := List.cons.inj h
    have h4 := List.cons.inj h3.2
    exact absurd h4.2 (by decide)

theorem C3_anarchist_fixup_witness :
    anarchistFixup ['a', ':', '/', '/', 'b'] 1 2 = (['a', ':', '/', '.', '/', '/', 'b'], 4)
    ∧ ((((anarchistFixup ['a', ':', '/', '/', 'b'] 1 2).1 ++ ['x']).drop 1).take 3)
        ≠ [':', '/', '/'] := by
  have h := C3_anarchist_fixup ['a', ':', '/', '/', 'b'] 1 2 rfl (by decide)
  refine ⟨?_, h.2 ['x']⟩
  rw [h.1]
  decide

/-! ## C4: port canonicalization in `parse_host_and_port` -/

theorem hostScan_through (st : SchemeType) :
    ∀ (H rest : List Char),
      (∀ c ∈ H, c ≠ ':' ∧ c ≠ '\\' ∧ c ≠ '/' ∧ c ≠ '?' ∧ c ≠ '#' ∧ c ≠ '[' ∧ c ≠ ']') →
      hostScan st false (H ++ ':' :: rest) = (H, ':' :: rest) := by
  intro H
  induction H with
  | nil => intro rest _; simp [hostScan]
  | cons c H' ih =>
    intro rest hall
    obtain ⟨h1, h2, h3, h4, h5, h6, h7⟩ := hall c (by simp)
    rw [List.cons_append, hostScan]
    rw [if_neg (by simp [h1]), if_neg (by simp [h2]), if_neg (by simp [h3, h4, h5]),
      if_neg h6, if_neg h7]
    simp only [ih rest (fun x hx => hall x (by simp [hx]))]

theorem fastU16ToStrAux_props :
    ∀ (fuel v : Nat), 1 ≤ fuel → v < 10 ^ fuel →
      ∃ ds, ds ≠ [] ∧ (∀ c ∈ ds, c.isDigit = true)
        ∧ (ds.head? = some '0' → v = 0)
        ∧ digitsVal ds = v
        ∧ ∀ acc, fastU16ToStrAux fuel v acc = ds ++ acc := by
  intro fuel
  induction fuel with
  | zero => intro v h; omega
  | succ fuel ih =>
    intro v _ hv
    have hmod : v % 10 < 10 := Nat.mod_lt _ (by omega)
    have htn : (Char.ofNat (48 + v % 10)).toNat = 48 + v % 10 :=
      char_ofNat_toNat _ (by omega)
    by_cases h10 : v / 10 = 0
    · have hvlt : v < 10 := by omega
      refine ⟨[Char.ofNat (48 + v % 10)], by simp, ?_, ?_, ?_, ?_⟩
      · intro c hc
        simp only [List.mem_singleton] at hc
        subst hc
        rw [char_isDigit_iff, htn]
        omega
      · intro hh
        simp only [List.head?_cons, Option.some.injEq] at hh
        have h48 := congrArg Char.toNat hh
        rw [htn, show ('0').toNat = 48 from rfl] at h48
        omega
      · simp only [digitsVal, List.foldl_cons, List.foldl_nil, htn]
        omega
      · intro acc
        rw [fastU16ToStrAux, if_pos h10]
        rfl
    · have hfuel1 : 1 ≤ fuel := by
        by_contra hf
        have hz : fuel = 0 := by omega
        subst hz
        norm_num at hv
        omega
      have hv' : v / 10 < 10 ^ fuel := by
        rw [Nat.div_lt_iff_lt_mul (by omega)]
        calc v < 10 ^ (fuel + 1) := hv
        _ = 10 ^ fuel * 10 := by rw [pow_succ]
      obtain ⟨ds', hne', hdig', hhead', hval', heq'⟩ := ih (v / 10) hfuel1 hv'
      refine ⟨ds' ++ [Char.ofNat (48 + v % 10)], by simp, ?_, ?_, ?_, ?_⟩
      · intro c hc
        rcases List.mem_append.mp hc with hc | hc
        · exact hdig' c hc
        · simp only [List.mem_singleton] at hc
          subst hc
          rw [char_isDigit_iff, htn]
          omega
      · intro hh
        rcases ds' with _ | ⟨d0, ds''⟩
        · exact absurd rfl hne'
        · simp only [List.cons_append, List.head?_cons, Option.some.injEq] at hh
          have := hhead' (by simp [hh])
          exact absurd this h10
      · simp only [digitsVal, List.foldl_append, List.foldl_cons, List.foldl_nil]
        have hval'' : ds'.foldl (fun a c => a * 10 + (c.toNat - 48)) 0 = v / 10 := hval'
        rw [hval'', htn]
        omega
      · intro acc
        rw [fastU16ToStrAux, if_neg h10, heq' _]
        simp

theorem fastU16ToStr_props (v : Nat) (h : v ≤ 65535) :
    (∀ c ∈ fastU16ToStr v, c.isDigit = true)
    ∧ digitsVal (fastU16ToStr v) = v
    ∧ ((fastU16ToStr v).head? = some '0' → v = 0) := by
  obtain ⟨ds, _, hdig, hhead, hval, heq⟩ :=
    fastU16ToStrAux_props 5 v (by omega) (by norm_num; omega)
  have hs : fastU16ToStr v = ds := by
    rw [fastU16ToStr, heq []]
    simp
  rw [hs]
  exact ⟨hdig, hval, hhead⟩

/-- **C4**: in `parse_host_and_port`, when the digits after the host's `:` evaluate to
the scheme's default port or no digit was read, the port is `None` and the
serialization omits the `:port` suffix; a non-default in-range port is recorded and
appended as `:` followed by its decimal digits (digit characters whose value is the
port, with no leading zero unless the port is 0). -/
theorem C4_host_port (S0 : List Char) (scheme_end : Nat) (st : SchemeType)
    (H D : List Char)
    (hst : st ≠ SchemeType.File)
    (hH : H ≠ [])
    (hHchars : ∀ c ∈ H, c ≠ ':' ∧ c ≠ '\\' ∧ c ≠ '/' ∧ c ≠ '?' ∧ c ≠ '#' ∧ c ≠ '[' ∧ c ≠ ']')
    (hse : scheme_end ≤ S0.length)
    (hdig : ∀ c ∈ D, c.isDigit = true)
    (hle : digitsVal D ≤ 65535) :
    parse_host_and_port S0 scheme_end st Context.UrlParser (H ++ ':' :: D)
      = Except.ok (if D = [] ∨ some (digitsVal D) = default_port (S0.take scheme_end)
                then S0 ++ H
                else S0 ++ H ++ ':' :: fastU16ToStr (digitsVal D),
              (S0 ++ H).length,
              HostInternal.Domain,
              if D = [] ∨ some (digitsVal D) = default_port (S0.take scheme_end)
                then none else some (digitsVal D),
              [])
    ∧ (∀ c ∈ fastU16ToStr (digitsVal D), c.isDigit = true)
    ∧ digitsVal (fastU16ToStr (digitsVal D)) = digitsVal D
    ∧ ((fastU16ToStr (digitsVal D)).head? = some '0' → digitsVal D = 0) := by
  obtain ⟨hfd, hfv, hfh⟩ := fastU16ToStr_props (digitsVal D) hle
  refine ⟨?_, hfd, hfv, hfh⟩
  have hhost : parse_host st (H ++ ':' :: D) = Except.ok (H, ':' :: D) := by
    simp only [parse_host, hostScan_through st H D hHchars]
    rw [if_neg hst, if_neg (fun hc => hH hc.2)]
  have hhi : hostInternalOf H = HostInternal.Domain := by
    rw [hostInternalOf, if_neg hH]
  have hdp : default_port ((S0 ++ H).take scheme_end) = default_port (S0.take scheme_end) := by
    rw [List.take_append_of_le_length hse]
  have hsplit : splitColon (':' :: D) = some D := rfl
  unfold parse_host_and_port
  rw [hhost]
  simp only [hsplit, hdp, hhi]
  rw [if_neg (fun hc => hH hc.1)]
  by_cases hcase : D = [] ∨ some (digitsVal D) = default_port (S0.take scheme_end)
  · simp only [parse_port_digits D _ hdig hle, if_pos hcase, hhi]
  · simp only [parse_port_digits D _ hdig hle, if_neg hcase, hhi]

theorem C4_host_port_witness :
    parse_host_and_port ['h','t','t','p',':','/','/'] 4 SchemeType.SpecialNotFile
        Context.UrlParser ['e','x',':','8','0']
      = Except.ok (['h','t','t','p',':','/','/','e','x'], 9, HostInternal.Domain, none, [])
    ∧ parse_host_and_port ['h','t','t','p',':','/','/'] 4 SchemeType.SpecialNotFile
        Context.UrlParser ['e','x',':','8','1']
      = Except.ok (['h','t','t','p',':','/','/','e','x',':','8','1'], 9,
          HostInternal.Domain, some 81, []) := by
  constructor
  · have h := (C4_host_port ['h','t','t','p',':','/','/'] 4 SchemeType.SpecialNotFile
      ['e','x'] ['8','0'] (by decide) (by decide) (by decide) (by decide) (by decide)
      (by decide)).1
    rw [if_pos (by decide), if_pos (by decide)] at h
    exact h
  · have h := (C4_host_port ['h','t','t','p',':','/','/'] 4 SchemeType.SpecialNotFile
      ['e','x'] ['8','1'] (by decide) (by decide) (by decide) (by decide) (by decide)
      (by decide)).1
    rw [if_neg (by decide), if_neg (by decide)] at h
    rw [show fastU16ToStr (digitsVal ['8','1']) = ['8','1'] from by decide] at h
    exact h

/-! ## C2: the tab/LF/CR-free serialization invariant

Toolbox: closure properties of `tabFree`. -/

theorem tabFree_nil : tabFree [] := by
  intro c hc
  cases hc

theorem tabFree_of_subset {l' l : List Char} (h : l' ⊆ l) (hl : tabFree l) : tabFree l' :=
  fun c hc => hl c (h hc)

theorem tabFree_append {a b : List Char} (ha : tabFree a) (hb : tabFree b) :
    tabFree (a ++ b) := by
  intro c hc
  rcases List.mem_append.1 hc with h | h
  · exact ha c h
  · exact hb c h

theorem tabFree_take {l : List Char} (n : Nat) (hl : tabFree l) : tabFree (l.take n) :=
  tabFree_of_subset (List.take_subset n l) hl

theorem tabFree_drop {l : List Char} (n : Nat) (hl : tabFree l) : tabFree (l.drop n) :=
  tabFree_of_subset (List.drop_subset n l) hl

theorem tabFree_tail {l : List Char} (hl : tabFree l) : tabFree l.tail :=
  tabFree_of_subset (List.tail_subset l) hl

theorem tabFree_takeWhile {l : List Char} (p : Char → Bool) (hl : tabFree l) :
    tabFree (l.takeWhile p) :=
  tabFree_of_subset (List.takeWhile_sublist p).subset hl

theorem tabFree_dropWhile {l : List Char} (p : Char → Bool) (hl : tabFree l) :
    tabFree (l.dropWhile p) :=
  tabFree_of_subset (List.dropWhile_sublist p).subset hl

theorem tabFree_cons {c : Char} {l : List Char} (hc : ascii_tab_or_new_line c = false)
    (hl : tabFree l) : tabFree (c :: l) := by
  intro x hx
  rcases List.mem_cons.1 hx with h | h
  · exact h ▸ hc
  · exact hl x h

theorem tabFree_stripTabNl (l : List Char) : tabFree (stripTabNl l) := by
  intro c hc
  have := List.mem_filter.1 hc
  simpa using this.2

theorem tabFree_trimMatches (p : Char → Bool) {l : List Char} (hl : tabFree l) :
    tabFree (trimMatches p l) := by
  unfold trimMatches
  intro c hc
  rw [List.mem_reverse] at hc
  have hc2 := (List.dropWhile_sublist p).subset hc
  rw [List.mem_reverse] at hc2
  exact hl c ((List.dropWhile_sublist p).subset hc2)

/-! Character facts for the invariant. -/

theorem char_toNat_lt (c : Char) : c.toNat < 1114112 := by
  rcases c.valid with h | h
  · exact Nat.lt_trans h (by decide)
  · exact h.2

theorem ascii_tab_or_new_line_eq_false_iff (c : Char) :
    ascii_tab_or_new_line c = false ↔ c.toNat ≠ 9 ∧ c.toNat ≠ 10 ∧ c.toNat ≠ 13 := by
  unfold ascii_tab_or_new_line
  simp only [Bool.or_eq_false_iff, decide_eq_false_iff_not]
  rw [char_eq_iff c '\t', char_eq_iff c '\n', char_eq_iff c '\r']
  rw [show ('\t').toNat = 9 from rfl, show ('\n').toNat = 10 from rfl,
    show ('\r').toNat = 13 from rfl]
  tauto

theorem tab_ofNat_false (x : Nat) (hx : x < 55296) (h9 : x ≠ 9) (h10 : x ≠ 10)
    (h13 : x ≠ 13) : ascii_tab_or_new_line (Char.ofNat x) = false := by
  rw [ascii_tab_or_new_line_eq_false_iff, char_ofNat_toNat x hx]
  exact ⟨h9, h10, h13⟩

/-! Percent-encoded output is tab-free. -/

theorem hexUpperDigit_range : ∀ n < 16, 48 ≤ hexUpperDigit n ∧ hexUpperDigit n ≤ 70 := by
  decide

theorem utf8EncodeChar_bytes (c : Char) :
    ∀ b ∈ utf8EncodeChar c, b < 256 ∧ (b < 128 → b = c.toNat) := by
  intro b hb
  have hc := char_toNat_lt c
  unfold utf8EncodeChar at hb
  by_cases h1 : c.toNat < 128
  · rw [if_pos h1] at hb
    rcases List.mem_singleton.1 hb with rfl
    exact ⟨Nat.lt_trans h1 (by omega), fun _ => rfl⟩
  · rw [if_neg h1] at hb
    by_cases h2 : c.toNat < 2048
    · rw [if_pos h2] at hb
      have hq : c.toNat / 64 < 32 := by omega
      have hr : c.toNat % 64 < 64 := Nat.mod_lt _ (by omega)
      simp only [List.mem_cons, List.not_mem_nil, or_false] at hb
      rcases hb with rfl | rfl
      · exact ⟨by omega, by omega⟩
      · exact ⟨by omega, by omega⟩
    · rw [if_neg h2] at hb
      by_cases h3 : c.toNat < 65536
      · rw [if_pos h3] at hb
        have hq : c.toNat / 4096 < 16 := by omega
        have hr1 : c.toNat / 64 % 64 < 64 := Nat.mod_lt _ (by omega)
        have hr2 : c.toNat % 64 < 64 := Nat.mod_lt _ (by omega)
        simp only [List.mem_cons, List.not_mem_nil, or_false] at hb
        rcases hb with rfl | rfl | rfl
        · exact ⟨by omega, by omega⟩
        · exact ⟨by omega, by omega⟩
        · exact ⟨by omega, by omega⟩
      · rw [if_neg h3] at hb
        have hq : c.toNat / 262144 < 5 := by omega
        have hr1 : c.toNat / 4096 % 64 < 64 := Nat.mod_lt _ (by omega)
        have hr2 : c.toNat / 64 % 64 < 64 := Nat.mod_lt _ (by omega)
        have hr3 : c.toNat % 64 < 64 := Nat.mod_lt _ (by omega)
        simp only [List.mem_cons, List.not_mem_nil, or_false] at hb
        rcases hb with rfl | rfl | rfl | rfl
        · exact ⟨by omega, by omega⟩
        · exact ⟨by omega, by omega⟩
        · exact ⟨by omega, by omega⟩
        · exact ⟨by omega, by omega⟩

theorem tabFree_encodeBytesWith (s : AsciiSet) (bs : List Nat)
    (h : ∀ b ∈ bs, b < 256 ∧ (s.shouldPercentEncode b = false →
      b ≠ 9 ∧ b ≠ 10 ∧ b ≠ 13)) : tabFree (encodeBytesWith s bs) := by
  intro x hx
  unfold encodeBytesWith at hx
  rw [List.mem_map] at hx
  obtain ⟨y, hy, rfl⟩ := hx
  rw [List.mem_flatten] at hy
  obtain ⟨chunk, hchunk, hych⟩ := hy
  rw [List.mem_map] at hchunk
  obtain ⟨b, hb, rfl⟩ := hchunk
  obtain ⟨hb256, hbne⟩ := h b hb
  by_cases hs : s.shouldPercentEncode b = true
  · rw [if_pos hs] at hych
    have := percent_encode_byte_spec b hb256
    rw [this] at hych
    have h16a : b / 16 < 16 := by omega
    have h16b : b % 16 < 16 := by omega
    have ha := hexUpperDigit_range (b / 16) h16a
    have hbb := hexUpperDigit_range (b % 16) h16b
    simp only [List.mem_cons, List.not_mem_nil, or_false] at hych
    rcases hych with rfl | rfl | rfl
    · exact tab_ofNat_false 37 (by omega) (by omega) (by omega) (by omega)
    · exact tab_ofNat_false _ (by omega) (by omega) (by omega) (by omega)
    · exact tab_ofNat_false _ (by omega) (by omega) (by omega) (by omega)
  · rw [Bool.not_eq_true] at hs
    rw [if_neg (by rw [hs]; exact Bool.false_ne_true)] at hych
    simp only [List.mem_cons, List.not_mem_nil, or_false] at hych
    rw [hych]
    obtain ⟨h9, h10, h13⟩ := hbne hs
    exact tab_ofNat_false b (by omega) h9 h10 h13

theorem tabFree_encodeCharWith (s : AsciiSet) (c : Char)
    (hc : ascii_tab_or_new_line c = false) : tabFree (encodeCharWith s c) := by
  unfold encodeCharWith
  refine tabFree_encodeBytesWith s _ (fun b hb => ?_)
  obtain ⟨hb256, hb128⟩ := utf8EncodeChar_bytes c b hb
  refine ⟨hb256, fun hs => ?_⟩
  have hlt : b < 128 := by
    by_contra hge
    unfold AsciiSet.shouldPercentEncode at hs
    rw [Bool.or_eq_false_iff] at hs
    have := hs.1
    simp only [decide_eq_false_iff_not, Nat.not_le] at this
    omega
  obtain rfl := hb128 hlt
  obtain ⟨h9, h10, h13⟩ := (ascii_tab_or_new_line_eq_false_iff c).1 hc
  exact ⟨h9, h10, h13⟩

theorem tabFree_encodeStrWith (s : AsciiSet) {l : List Char} (hl : tabFree l) :
    tabFree (encodeStrWith s l) := by
  intro x hx
  unfold encodeStrWith at hx
  rw [List.mem_flatten] at hx
  obtain ⟨chunk, hchunk, hxch⟩ := hx
  rw [List.mem_map] at hchunk
  obtain ⟨c, hc, rfl⟩ := hchunk
  exact tabFree_encodeCharWith s c (hl c hc) x hxch

theorem query_sets_encode_tabs :
    ∀ b, (b = 9 ∨ b = 10 ∨ b = 13) →
      QUERY.shouldPercentEncode b = true ∧ SPECIAL_QUERY.shouldPercentEncode b = true := by
  intro b hb
  rcases hb with rfl | rfl | rfl <;> exact ⟨by decide, by decide⟩


theorem tabFree_of_all {l : List Char}
    (h : l.all (fun c => ! ascii_tab_or_new_line c) = true) : tabFree l := by
  intro c hc
  have := List.all_eq_true.1 h c hc
  simpa using this

theorem tabFree_singleton {c : Char} (h : ascii_tab_or_new_line c = false) :
    tabFree [c] :=
  tabFree_cons h tabFree_nil

theorem tabFree_pop_path (scheme_type : SchemeType) (path_start : Nat)
    {s : List Char} (hs : tabFree s) : tabFree (pop_path scheme_type path_start s) := by
  unfold pop_path
  split
  · dsimp only
    split
    · exact tabFree_take _ hs
    · exact hs
  · exact hs

theorem tabFree_shorten_path (scheme_type : SchemeType) (path_start : Nat)
    {s : List Char} (hs : tabFree s) : tabFree (shorten_path scheme_type path_start s) := by
  unfold shorten_path
  split
  · exact hs
  · split
    · exact hs
    · exact tabFree_pop_path scheme_type path_start hs

theorem tabFree_anarchistFixup (scheme_end path_start : Nat) {s : List Char}
    (hs : tabFree s) : tabFree (anarchistFixup s scheme_end path_start).1 := by
  unfold anarchistFixup
  split
  · split
    · exact tabFree_append (tabFree_take _ hs)
        (tabFree_cons (by decide) (tabFree_cons (by decide) (tabFree_drop _ hs)))
    · exact hs
  · split
    · split
      · exact tabFree_append (tabFree_take _ hs) (tabFree_cons (by decide) (tabFree_drop _ hs))
      · exact hs
    · exact hs

theorem parsePathSegment_tabFree (scheme_type : SchemeType) (context : Context)
    (path_start : Nat) :
    ∀ (input : List Char) (segment_start : Nat) (st : Pst) (pending : List Char),
      tabFree st.serialization → tabFree pending → tabFree input →
      tabFree (parsePathSegment scheme_type context path_start segment_start st pending
        input).1.serialization
      ∧ tabFree (parsePathSegment scheme_type context path_start segment_start st pending
        input).2.2.2 := by
  intro input
  induction input with
  | nil =>
    intro segment_start st pending hst hp _
    exact ⟨tabFree_append hst (tabFree_encodeStrWith _ hp), tabFree_nil⟩
  | cons c rest ih =>
    intro segment_start st pending hst hp hin
    have hc : ascii_tab_or_new_line c = false := hin c (List.mem_cons_self c rest)
    have hrest : tabFree rest := fun x hx => hin x (List.mem_cons_of_mem c hx)
    simp only [parsePathSegment]
    by_cases h1 : c = '/' ∧ context ≠ Context.PathSegmentSetter
    · rw [if_pos h1]
      exact ⟨tabFree_append (tabFree_append hst (tabFree_encodeStrWith _ hp))
        (tabFree_singleton (by decide)), hrest⟩
    · rw [if_neg h1]
      by_cases h2 : c = '\\' ∧ context ≠ Context.PathSegmentSetter
          ∧ scheme_type.is_special = true
      · rw [if_pos h2]
        exact ⟨tabFree_append (tabFree_append hst (tabFree_encodeStrWith _ hp))
          (tabFree_singleton (by decide)), hrest⟩
      · rw [if_neg h2]
        by_cases h3 : (c = '?' ∨ c = '#') ∧ context = Context.UrlParser
        · rw [if_pos h3]
          exact ⟨tabFree_append hst (tabFree_encodeStrWith _ hp), hin⟩
        · rw [if_neg h3]
          by_cases h4 : scheme_type.is_file = true
              ∧ path_start < (st.addViols (check_url_code_point c rest)).serialization.length
              ∧ is_normalized_windows_drive_letter
                ((st.addViols (check_url_code_point c rest)).serialization.drop
                  (path_start + 1)) = true
          · rw [if_pos h4]
            exact ih (segment_start + 1)
              (((st.addViols (check_url_code_point c rest)).push
                (encodeStrWith (pathSet context scheme_type) pending)).push ['/'])
              [c]
              (tabFree_append (tabFree_append hst (tabFree_encodeStrWith _ hp))
                (tabFree_singleton (by decide)))
              (tabFree_singleton hc) hrest
          · rw [if_neg h4]
            exact ih segment_start (st.addViols (check_url_code_point c rest))
              (pending ++ [c]) hst (tabFree_append hp (tabFree_singleton hc)) hrest

theorem processPathSegment_tabFree (scheme_type : SchemeType)
    (path_start segment_start : Nat) (ends_with_slash has_host : Bool) (st : Pst)
    (hst : tabFree st.serialization) :
    tabFree (processPathSegment scheme_type path_start segment_start ends_with_slash
      has_host st).1.serialization := by
  unfold processPathSegment
  dsimp only
  have hseg : tabFree (if ends_with_slash = true then
      (st.serialization.take (st.serialization.length - 1)).drop segment_start
    else st.serialization.drop segment_start) := by
    split
    · exact tabFree_drop _ (tabFree_take _ hst)
    · exact tabFree_drop _ hst
  generalize hG : (if ends_with_slash = true then
      (st.serialization.take (st.serialization.length - 1)).drop segment_start
    else st.serialization.drop segment_start) = seg at hseg ⊢
  split
  · split
    · split
      · exact tabFree_append
          (tabFree_shorten_path _ _ (tabFree_take _ (tabFree_take _ hst)))
          (tabFree_singleton (by decide))
      · exact tabFree_shorten_path _ _ (tabFree_take _ (tabFree_take _ hst))
    · split
      · exact tabFree_append (tabFree_shorten_path _ _ (tabFree_take _ hst))
          (tabFree_singleton (by decide))
      · exact tabFree_shorten_path _ _ (tabFree_take _ hst)
  · split
    · split
      · exact tabFree_append (tabFree_take _ hst) (tabFree_singleton (by decide))
      · exact tabFree_take _ hst
    · split
      · have hst1 : tabFree (match seg.head? with
            | some c => { st with serialization :=
                st.serialization.take segment_start ++ [c, ':']
                  ++ (if ends_with_slash then ['/'] else []) }
            | none => st).serialization := by
          cases hh : seg.head? with
          | none => exact hst
          | some c =>
            have hcm : c ∈ seg := by
              cases seg with
              | nil => cases hh
              | cons a t =>
                rw [List.head?_cons, Option.some.injEq] at hh
                exact hh ▸ List.mem_cons_self a t
            refine tabFree_append (tabFree_append (tabFree_take _ hst)
              (tabFree_cons (hseg c hcm) (tabFree_singleton (by decide)))) ?_
            split
            · exact tabFree_singleton (by decide)
            · exact tabFree_nil
        split
        · exact hst1
        · exact hst1
      · exact hst

theorem Pst_logIf_serialization (st : Pst) (v : SyntaxViolation) (t : Bool) :
    (st.logIf v t).serialization = st.serialization := by
  unfold Pst.logIf Pst.log
  split <;> rfl

theorem tabFree_logIf {st : Pst} (v : SyntaxViolation) (t : Bool)
    (hst : tabFree st.serialization) : tabFree (st.logIf v t).serialization := by
  rw [Pst_logIf_serialization]
  exact hst

theorem tabFree_before_fragment {u : Url} (hu : tabFree u.serialization) :
    tabFree u.before_fragment := by
  unfold Url.before_fragment
  split
  · exact tabFree_take _ hu
  · exact hu

theorem tabFree_before_query {u : Url} (hu : tabFree u.serialization) :
    tabFree u.before_query := by
  unfold Url.before_query
  split
  · exact hu
  · exact tabFree_take _ hu
  · exact tabFree_take _ hu

theorem parsePathLoop_tabFree (scheme_type : SchemeType) (context : Context)
    (path_start : Nat) :
    ∀ (fuel : Nat) (input : List Char) (has_host : Bool) (st : Pst),
      tabFree st.serialization → tabFree input →
      tabFree (parsePathLoop scheme_type context path_start fuel has_host st
        input).1.serialization
      ∧ tabFree (parsePathLoop scheme_type context path_start fuel has_host st
        input).2.2 := by
  intro fuel
  induction fuel with
  | zero =>
    intro input hh st hst hin
    exact ⟨hst, hin⟩
  | succ fuel ih =>
    intro input hh st hst hin
    simp only [parsePathLoop]
    obtain ⟨hseg1, hseg2⟩ := parsePathSegment_tabFree scheme_type context path_start input
      st.serialization.length st [] hst tabFree_nil hin
    rcases hS : parsePathSegment scheme_type context path_start st.serialization.length st []
      input with ⟨st1, segStart, ews, remaining⟩
    rw [hS] at hseg1 hseg2
    have hproc := processPathSegment_tabFree scheme_type path_start segStart ews hh st1 hseg1
    rcases hP : processPathSegment scheme_type path_start segStart ews hh st1 with ⟨st2, hh2⟩
    rw [hP] at hproc
    dsimp only
    split
    · exact ih remaining hh2 st2 hproc hseg2
    · exact ⟨hproc, hseg2⟩

theorem parse_path_tabFree (scheme_type : SchemeType) (context : Context)
    (has_host : Bool) (path_start : Nat) (st : Pst) (input : List Char)
    (hst : tabFree st.serialization) (hin : tabFree input) :
    tabFree (parse_path scheme_type context has_host path_start st input).1.serialization
    ∧ tabFree (parse_path scheme_type context has_host path_start st input).2.2 := by
  unfold parse_path
  obtain ⟨h1, h2⟩ := parsePathLoop_tabFree scheme_type context path_start (input.length + 1)
    input has_host st hst hin
  rcases hL : parsePathLoop scheme_type context path_start (input.length + 1) has_host st
    input with ⟨st1, hh1, remaining⟩
  rw [hL] at h1 h2
  dsimp only
  split
  · exact ⟨tabFree_append (tabFree_take _ h1)
      (tabFree_cons (by decide) (tabFree_dropWhile _ (tabFree_drop _ h1))), h2⟩
  · exact ⟨h1, h2⟩

theorem parse_path_start_tabFree (scheme_type : SchemeType) (context : Context)
    (has_host : Bool) (st : Pst) (input : List Char)
    (hst : tabFree st.serialization) (hin : tabFree input) :
    tabFree (parse_path_start scheme_type context has_host st input).1.serialization
    ∧ tabFree (parse_path_start scheme_type context has_host st input).2.2 := by
  unfold parse_path_start
  dsimp only
  have hstL : tabFree (st.logIf SyntaxViolation.Backslash
      (decide (input.head? = some '\\'))).serialization :=
    tabFree_logIf _ _ hst
  split
  · split
    · split
      · exact parse_path_tabFree _ _ _ _ _ _
          (tabFree_append hstL (tabFree_singleton (by decide))) (tabFree_tail hin)
      · exact parse_path_tabFree _ _ _ _ _ _
          (tabFree_append hstL (tabFree_singleton (by decide))) hin
    · exact parse_path_tabFree _ _ _ _ _ _ hstL hin
  · split
    · exact ⟨hst, hin⟩
    · split
      · exact parse_path_tabFree _ _ _ _ _ _
          (tabFree_append hst (tabFree_singleton (by decide))) hin
      · exact parse_path_tabFree _ _ _ _ _ _ hst hin

theorem parse_cannot_be_a_base_path_tabFree (context : Context) :
    ∀ (input : List Char) (st : Pst),
      tabFree st.serialization → tabFree input →
      tabFree (parse_cannot_be_a_base_path context st input).1.serialization
      ∧ tabFree (parse_cannot_be_a_base_path context st input).2 := by
  intro input
  induction input with
  | nil =>
    intro st hst _
    exact ⟨hst, tabFree_nil⟩
  | cons c rest ih =>
    intro st hst hin
    have hc : ascii_tab_or_new_line c = false := hin c (List.mem_cons_self c rest)
    have hrest : tabFree rest := fun x hx => hin x (List.mem_cons_of_mem c hx)
    simp only [parse_cannot_be_a_base_path]
    split
    · exact ⟨hst, hin⟩
    · exact ih _ (tabFree_append hst (tabFree_encodeCharWith _ c hc)) hrest

theorem parse_query_tabFree (scheme_type : SchemeType) (scheme_end : Nat)
    (context : Context) (override : Option (List Char → List (Fin 256))) (st : Pst)
    (input : List Char) (hst : tabFree st.serialization) (hin : tabFree input) :
    tabFree (parse_query scheme_type scheme_end context override st
      input).1.serialization
    ∧ ∀ rem, (parse_query scheme_type scheme_end context override st input).2 = some rem →
        tabFree rem := by
  have hbytes : ∀ (o : List Char → List (Fin 256)) (l : List Char),
      tabFree (encodeBytesWith
        (if scheme_type.is_special = true then SPECIAL_QUERY else QUERY)
        ((o l).map Fin.val)) := by
    intro o l
    refine tabFree_encodeBytesWith _ _ (fun b hb => ?_)
    rw [List.mem_map] at hb
    obtain ⟨f, _, rfl⟩ := hb
    refine ⟨f.isLt, fun hs => ?_⟩
    have hset : ∀ hb2 : f.val = 9 ∨ f.val = 10 ∨ f.val = 13, False := by
      intro hb2
      have henc : (if scheme_type.is_special = true then SPECIAL_QUERY
          else QUERY).shouldPercentEncode f.val = true := by
        split
        · exact (query_sets_encode_tabs f.val hb2).2
        · exact (query_sets_encode_tabs f.val hb2).1
      rw [henc] at hs
      cases hs
    exact ⟨fun h => hset (Or.inl h), fun h => hset (Or.inr (Or.inl h)),
      fun h => hset (Or.inr (Or.inr h))⟩
  unfold parse_query
  cases input with
  | nil => exact ⟨hst, fun rem h => by cases h⟩
  | cons c rest =>
    dsimp only
    cases override with
    | none =>
      refine ⟨?_, ?_⟩
      · split
        · rcases hd : (c :: rest).dropWhile (fun x => x ≠ '#') with _ | ⟨x, xs⟩
          · exact tabFree_append hst (tabFree_encodeStrWith _ (tabFree_takeWhile _ hin))
          · exact tabFree_append hst (tabFree_encodeStrWith _ (tabFree_takeWhile _ hin))
        · exact tabFree_append hst (tabFree_encodeStrWith _ hin)
      · intro rem h
        revert h
        split
        · rcases hd : (c :: rest).dropWhile (fun x => x ≠ '#') with _ | ⟨x, xs⟩
          · intro h; cases h
          · intro h
            have hxs : tabFree (x :: xs) := by
              rw [← hd]
              exact tabFree_dropWhile _ hin
            injection h with h
            exact h ▸ tabFree_tail hxs
        · intro h; cases h
    | some o =>
      by_cases hov : List.take scheme_end st.serialization = ['h','t','t','p']
          ∨ List.take scheme_end st.serialization = ['h','t','t','p','s']
          ∨ List.take scheme_end st.serialization = ['f','i','l','e']
          ∨ List.take scheme_end st.serialization = ['f','t','p']
      · simp only [if_pos hov]
        refine ⟨?_, ?_⟩
        · split
          · rcases hd : (c :: rest).dropWhile (fun x => x ≠ '#') with _ | ⟨x, xs⟩
            · exact tabFree_append hst (hbytes o _)
            · exact tabFree_append hst (hbytes o _)
          · exact tabFree_append hst (hbytes o _)
        · intro rem h
          revert h
          split
          · rcases hd : (c :: rest).dropWhile (fun x => x ≠ '#') with _ | ⟨x, xs⟩
            · intro h; cases h
            · intro h
              have hxs : tabFree (x :: xs) := by
                rw [← hd]
                exact tabFree_dropWhile _ hin
              injection h with h
              exact h ▸ tabFree_tail hxs
          · intro h; cases h
      · simp only [if_neg hov]
        refine ⟨?_, ?_⟩
        · split
          · rcases hd : (c :: rest).dropWhile (fun x => x ≠ '#') with _ | ⟨x, xs⟩
            · exact tabFree_append hst (tabFree_encodeStrWith _ (tabFree_takeWhile _ hin))
            · exact tabFree_append hst (tabFree_encodeStrWith _ (tabFree_takeWhile _ hin))
          · exact tabFree_append hst (tabFree_encodeStrWith _ hin)
        · intro rem h
          revert h
          split
          · rcases hd : (c :: rest).dropWhile (fun x => x ≠ '#') with _ | ⟨x, xs⟩
            · intro h; cases h
            · intro h
              have hxs : tabFree (x :: xs) := by
                rw [← hd]
                exact tabFree_dropWhile _ hin
              injection h with h
              exact h ▸ tabFree_tail hxs
          · intro h; cases h

theorem parse_fragment_tabFree (st : Pst) (input : List Char)
    (hst : tabFree st.serialization) (hin : tabFree input) :
    tabFree (parse_fragment st input).serialization :=
  tabFree_append hst (tabFree_encodeStrWith _ hin)

theorem parse_query_and_fragment_tabFree (scheme_type : SchemeType) (scheme_end : Nat)
    (context : Context) (override : Option (List Char → List (Fin 256))) (st : Pst)
    (input : List Char) (hst : tabFree st.serialization) (hin : tabFree input) :
    tabFree (parse_query_and_fragment scheme_type scheme_end context override st
      input).1.serialization := by
  unfold parse_query_and_fragment
  cases input with
  | nil => exact hst
  | cons c rest =>
    have hrest : tabFree rest := fun x hx => hin x (List.mem_cons_of_mem c hx)
    dsimp only
    split
    · cases h32 : to_u32 st.serialization.length with
      | error e => exact hst
      | ok n =>
        exact parse_fragment_tabFree _ _
          (tabFree_append hst (tabFree_singleton (by decide))) hrest
    · split
      · cases h32 : to_u32 st.serialization.length with
        | error e => exact hst
        | ok n =>
          dsimp only
          obtain ⟨hq1, hq2⟩ := parse_query_tabFree scheme_type scheme_end context override
            (st.push ['?']) rest (tabFree_append hst (tabFree_singleton (by decide))) hrest
          rcases hQ : parse_query scheme_type scheme_end context override (st.push ['?'])
            rest with ⟨st1, orem⟩
          rw [hQ] at hq1 hq2
          cases orem with
          | none => exact hq1
          | some remaining =>
            dsimp only
            cases h32b : to_u32 st1.serialization.length with
            | error e => exact hq1
            | ok m =>
              exact parse_fragment_tabFree _ _
                (tabFree_append hq1 (tabFree_singleton (by decide)))
                (hq2 remaining rfl)
      · exact hst

theorem fragment_only_tabFree (base : Url) (st : Pst) (input : List Char)
    (hbase : tabFree base.serialization) (hst : tabFree st.serialization)
    (hin : tabFree input) :
    tabFree (fragment_only base st input).1.serialization
    ∧ ∀ u, (fragment_only base st input).2 = Except.ok u → tabFree u.serialization := by
  unfold fragment_only
  dsimp only
  have hfr : tabFree (parse_fragment ((st.push base.before_fragment).push ['#'])
      (input.drop 1)).serialization :=
    parse_fragment_tabFree _ _
      (tabFree_append (tabFree_append hst (tabFree_before_fragment hbase))
        (tabFree_singleton (by decide)))
      (tabFree_drop _ hin)
  cases h32 : to_u32 base.before_fragment.length with
  | error e => exact ⟨hfr, fun u h => by cases h⟩
  | ok n =>
    refine ⟨hfr, fun u h => ?_⟩
    injection h with h
    subst h
    exact hfr

theorem with_query_and_fragment_tabFree (scheme_type : SchemeType) (context : Context)
    (override : Option (List Char → List (Fin 256)))
    (scheme_end username_end host_start host_end : Nat) (host : HostInternal)
    (port : Option Nat) (path_start : Nat) (st : Pst) (remaining : List Char)
    (hst : tabFree st.serialization) (hin : tabFree remaining) :
    tabFree (with_query_and_fragment scheme_type context override scheme_end username_end
      host_start host_end host port path_start st remaining).1.serialization
    ∧ ∀ u, (with_query_and_fragment scheme_type context override scheme_end username_end
        host_start host_end host port path_start st remaining).2 = Except.ok u →
        tabFree u.serialization := by
  unfold with_query_and_fragment
  have hfix := tabFree_anarchistFixup scheme_end path_start hst
  rcases hA : anarchistFixup st.serialization scheme_end path_start with ⟨ser1, ps1⟩
  rw [hA] at hfix
  dsimp only
  have hqf := parse_query_and_fragment_tabFree scheme_type scheme_end context override
    { st with serialization := ser1 } remaining hfix hin
  rcases hQ : parse_query_and_fragment scheme_type scheme_end context override
    { st with serialization := ser1 } remaining with ⟨st2, r⟩
  rw [hQ] at hqf
  cases r with
  | error e => exact ⟨hqf, fun u h => nomatch h⟩
  | ok qf =>
    rcases qf with ⟨query_start, fragment_start⟩
    dsimp only
    refine ⟨hqf, fun u h => ?_⟩
    injection h with h
    subst h
    exact hqf

theorem userinfoScan_tabFree (special : Bool) :
    ∀ (input : List Char) (count : Nat) (lastAt : Option (Nat × List Char))
      (viols : List SyntaxViolation),
      tabFree input → (∀ p, lastAt = some p → tabFree p.2) →
      ∀ p, (userinfoScan special input count lastAt viols).1 = some p → tabFree p.2 := by
  intro input
  induction input with
  | nil =>
    intro count lastAt viols _ hla p hp
    exact hla p hp
  | cons c rest ih =>
    intro count lastAt viols hin hla p hp
    have hrest : tabFree rest := fun x hx => hin x (List.mem_cons_of_mem c hx)
    simp only [userinfoScan] at hp
    split at hp
    · exact hla p hp
    · split at hp
      · exact hla p hp
      · split at hp
        · refine ih _ _ _ hrest (fun q hq => ?_) p hp
          injection hq with hq
          subst hq
          exact hrest
        · exact ih _ _ _ hrest hla p hp

theorem userinfoEncode_tabFree :
    ∀ (count : Nat) (input : List Char) (st : Pst) (username_end : Option Nat)
      (hu hpw : Bool), tabFree st.serialization → tabFree input →
      tabFree (userinfoEncode count input st username_end hu hpw).1.serialization := by
  intro count
  induction count with
  | zero =>
    intro input st u hu hpw hst _
    exact hst
  | succ count ih =>
    intro input st u hu hpw hst hin
    cases input with
    | nil => exact hst
    | cons c rest =>
      have hc : ascii_tab_or_new_line c = false := hin c (List.mem_cons_self c rest)
      have hrest : tabFree rest := fun x hx => hin x (List.mem_cons_of_mem c hx)
      simp only [userinfoEncode]
      split
      · split
        · exact ih rest (st.push [':']) _ _ _
            (tabFree_append hst (tabFree_singleton (by decide))) hrest
        · exact ih rest st _ _ _ hst hrest
      · exact ih rest _ _ _ _
          (tabFree_append hst (tabFree_encodeCharWith _ c hc)) hrest

theorem parse_userinfo_tabFree (scheme_type : SchemeType) (st : Pst) (input : List Char)
    (hst : tabFree st.serialization) (hin : tabFree input) :
    tabFree (parse_userinfo scheme_type st input).1.serialization
    ∧ ∀ r, (parse_userinfo scheme_type st input).2 = Except.ok r → tabFree r.2 := by
  unfold parse_userinfo
  have hscan := userinfoScan_tabFree scheme_type.is_special input 0 none [] hin
    (fun p hp => nomatch hp)
  rcases hS : userinfoScan scheme_type.is_special input 0 none [] with ⟨lastAt, viols⟩
  rw [hS] at hscan
  cases lastAt with
  | none =>
    dsimp only
    cases h32 : to_u32 (st.addViols viols).serialization.length with
    | error e => exact ⟨hst, fun r h => nomatch h⟩
    | ok n =>
      refine ⟨hst, fun r h => ?_⟩
      injection h with h
      subst h
      exact hin
  | some p =>
    rcases p with ⟨cnt, remaining⟩
    have hrem : tabFree remaining := hscan (cnt, remaining) rfl
    cases cnt with
    | zero =>
      dsimp only
      cases hh : remaining.head? with
      | some c =>
        dsimp only
        split
        · exact ⟨hst, fun r h => nomatch h⟩
        · cases h32 : to_u32 (st.addViols viols).serialization.length with
          | error e => exact ⟨hst, fun r h => nomatch h⟩
          | ok n =>
            refine ⟨hst, fun r h => ?_⟩
            injection h with h
            subst h
            exact hrem
      | none =>
        dsimp only
        cases h32 : to_u32 (st.addViols viols).serialization.length with
        | error e => exact ⟨hst, fun r h => nomatch h⟩
        | ok n =>
          refine ⟨hst, fun r h => ?_⟩
          injection h with h
          subst h
          exact hrem
    | succ count =>
      dsimp only
      have henc := userinfoEncode_tabFree (count + 1) input (st.addViols viols) none
        false false hst hin
      rcases hE : userinfoEncode (count + 1) input (st.addViols viols) none false false
        with ⟨st2, username_end, hu, hpw⟩
      rw [hE] at henc
      dsimp only
      have hst3 : tabFree (if hu = true ∨ hpw = true then st2.push ['@']
          else st2).serialization := by
        split
        · exact tabFree_append henc (tabFree_singleton (by decide))
        · exact henc
      cases username_end with
      | some ue =>
        dsimp only
        cases h32 : to_u32 ue with
        | error e => exact ⟨henc, fun r h => nomatch h⟩
        | ok ue2 =>
          refine ⟨hst3, fun r h => ?_⟩
          injection h with h
          subst h
          exact hrem
      | none =>
        dsimp only
        cases h32 : to_u32 st2.serialization.length with
        | error e => exact ⟨henc, fun r h => nomatch h⟩
        | ok ue2 =>
          refine ⟨hst3, fun r h => ?_⟩
          injection h with h
          subst h
          exact hrem

theorem hostScan_tabFree (scheme_type : SchemeType) :
    ∀ (input : List Char) (ib : Bool), tabFree input →
      tabFree (hostScan scheme_type ib input).1 ∧ tabFree (hostScan scheme_type ib input).2 := by
  intro input
  induction input with
  | nil =>
    intro ib _
    exact ⟨tabFree_nil, tabFree_nil⟩
  | cons c rest ih =>
    intro ib hin
    have hc : ascii_tab_or_new_line c = false := hin c (List.mem_cons_self c rest)
    have hrest : tabFree rest := fun x hx => hin x (List.mem_cons_of_mem c hx)
    simp only [hostScan]
    split
    · exact ⟨tabFree_nil, hin⟩
    · split
      · exact ⟨tabFree_nil, hin⟩
      · split
        · exact ⟨tabFree_nil, hin⟩
        · split
          · exact ⟨tabFree_cons hc (ih true hrest).1, (ih true hrest).2⟩
          · split
            · exact ⟨tabFree_cons hc (ih false hrest).1, (ih false hrest).2⟩
            · exact ⟨tabFree_cons hc (ih ib hrest).1, (ih ib hrest).2⟩

theorem fileHostScan_tabFree :
    ∀ (input : List Char), tabFree input →
      tabFree (fileHostScan input).1 ∧ tabFree (fileHostScan input).2 := by
  intro input
  induction input with
  | nil =>
    intro _
    exact ⟨tabFree_nil, tabFree_nil⟩
  | cons c rest ih =>
    intro hin
    have hc : ascii_tab_or_new_line c = false := hin c (List.mem_cons_self c rest)
    have hrest : tabFree rest := fun x hx => hin x (List.mem_cons_of_mem c hx)
    simp only [fileHostScan]
    split
    · exact ⟨tabFree_nil, hin⟩
    · exact ⟨tabFree_cons hc (ih hrest).1, (ih hrest).2⟩

theorem fastU16ToStrAux_tabFree :
    ∀ (fuel v : Nat) (acc : List Char), tabFree acc →
      tabFree (fastU16ToStrAux fuel v acc) := by
  intro fuel
  induction fuel with
  | zero =>
    intro v acc hacc
    exact hacc
  | succ fuel ih =>
    intro v acc hacc
    have hm : v % 10 < 10 := Nat.mod_lt v (by omega)
    simp only [fastU16ToStrAux]
    split
    · exact tabFree_cons (tab_ofNat_false _ (by omega) (by omega) (by omega) (by omega)) hacc
    · exact ih (v / 10) _
        (tabFree_cons (tab_ofNat_false _ (by omega) (by omega) (by omega) (by omega)) hacc)

theorem tabFree_fastU16ToStr (v : Nat) : tabFree (fastU16ToStr v) :=
  fastU16ToStrAux_tabFree 5 v [] tabFree_nil

theorem parse_host_tabFree (scheme_type : SchemeType) (input : List Char)
    (hin : tabFree input) :
    ∀ r, parse_host scheme_type input = Except.ok r → tabFree r.1 ∧ tabFree r.2 := by
  unfold parse_host
  intro r h
  split at h
  · obtain ⟨h1, h2⟩ := fileHostScan_tabFree input hin
    dsimp only at h
    split at h
    · injection h with h
      subst h
      exact ⟨tabFree_nil, hin⟩
    · split at h
      · injection h with h
        subst h
        exact ⟨tabFree_nil, h2⟩
      · injection h with h
        subst h
        exact ⟨h1, h2⟩
  · obtain ⟨h1, h2⟩ := hostScan_tabFree scheme_type input false hin
    dsimp only at h
    split at h
    · exact nomatch h
    · injection h with h
      subst h
      exact ⟨h1, h2⟩

theorem parsePortLoop_remaining (context : Context) :
    ∀ (input : List Char) (port : Nat) (hd : Bool), tabFree input →
      ∀ r, parsePortLoop context port hd input = some r → tabFree r.2.2 := by
  intro input
  induction input with
  | nil =>
    intro port hd _ r h
    injection h with h
    subst h
    exact tabFree_nil
  | cons c rest ih =>
    intro port hd hin r h
    have hrest : tabFree rest := fun x hx => hin x (List.mem_cons_of_mem c hx)
    simp only [parsePortLoop] at h
    split at h
    · split at h
      · exact nomatch h
      · exact ih _ _ hrest r h
    · split at h
      · exact nomatch h
      · injection h with h
        subst h
        exact hin

theorem parse_port_remaining (input : List Char) (dp : Option Nat) (context : Context)
    (hin : tabFree input) :
    ∀ r, parse_port input dp context = Except.ok r → tabFree r.2 := by
  unfold parse_port
  intro r h
  cases hL : parsePortLoop context 0 false input with
  | none =>
    rw [hL] at h
    exact nomatch h
  | some pr =>
    rcases pr with ⟨port, hd, remaining⟩
    have hrem : tabFree remaining :=
      parsePortLoop_remaining context input 0 false hin (port, hd, remaining) hL
    rw [hL] at h
    dsimp only at h
    split at h
    · exact nomatch h
    · injection h with h
      subst h
      exact hrem

theorem parse_host_and_port_tabFree (serialization : List Char) (scheme_end : Nat)
    (scheme_type : SchemeType) (context : Context) (input : List Char)
    (hser : tabFree serialization) (hin : tabFree input) :
    ∀ r, parse_host_and_port serialization scheme_end scheme_type context input
      = Except.ok r → tabFree r.1 ∧ tabFree r.2.2.2.2 := by
  unfold parse_host_and_port
  intro r h
  cases hH : parse_host scheme_type input with
  | error e =>
    rw [hH] at h
    exact nomatch h
  | ok hr =>
    rcases hr with ⟨hostS, remaining⟩
    obtain ⟨hhost, hrem⟩ := parse_host_tabFree scheme_type input hin (hostS, remaining) hH
    rw [hH] at h
    dsimp only at h
    split at h
    · exact nomatch h
    · cases hC : splitColon remaining with
      | none =>
        rw [hC] at h
        injection h with h
        subst h
        exact ⟨tabFree_append hser hhost, hrem⟩
      | some afterColon =>
        have hafter : tabFree afterColon := by
          cases remaining with
          | nil => exact nomatch hC
          | cons x xs =>
            simp only [splitColon] at hC
            split at hC
            · injection hC with hC
              subst hC
              exact tabFree_tail hrem
            · exact nomatch hC
        rw [hC] at h
        dsimp only at h
        cases hP : parse_port afterColon
            (default_port ((serialization ++ hostS).take scheme_end)) context with
        | error e =>
          rw [hP] at h
          exact nomatch h
        | ok pp =>
          rcases pp with ⟨port, remaining2⟩
          have hrem2 : tabFree remaining2 :=
            parse_port_remaining afterColon _ context hafter (port, remaining2) hP
          rw [hP] at h
          dsimp only at h
          cases port with
          | some pv =>
            injection h with h
            subst h
            exact ⟨tabFree_append (tabFree_append hser hhost)
              (tabFree_cons (by decide) (tabFree_fastU16ToStr pv)), hrem2⟩
          | none =>
            injection h with h
            subst h
            exact ⟨tabFree_append hser hhost, hrem2⟩

theorem parse_file_host_tabFree (st : Pst) (input : List Char)
    (hst : tabFree st.serialization) (hin : tabFree input) :
    tabFree (parse_file_host st input).1.serialization
    ∧ tabFree (parse_file_host st input).2.2.2 := by
  unfold parse_file_host
  obtain ⟨h1, h2⟩ := fileHostScan_tabFree input hin
  rcases hF : fileHostScan input with ⟨hostS, rem⟩
  rw [hF] at h1 h2
  dsimp only
  split
  · exact ⟨hst, hin⟩
  · split
    · exact ⟨hst, h2⟩
    · split
      · exact ⟨hst, h2⟩
      · exact ⟨tabFree_append hst h1, h2⟩

theorem after_double_slash_tabFree (scheme_type : SchemeType) (context : Context)
    (override : Option (List Char → List (Fin 256))) (scheme_end : Nat) (st : Pst)
    (input : List Char) (hst : tabFree st.serialization) (hin : tabFree input) :
    tabFree (after_double_slash scheme_type context override scheme_end st
      input).1.serialization
    ∧ ∀ u, (after_double_slash scheme_type context override scheme_end st input).2
        = Except.ok u → tabFree u.serialization := by
  unfold after_double_slash
  dsimp only
  obtain ⟨hui1, hui2⟩ := parse_userinfo_tabFree scheme_type (st.push ['/', '/']) input
    (tabFree_append hst (tabFree_of_all (by decide))) hin
  rcases hU : parse_userinfo scheme_type (st.push ['/', '/']) input with ⟨st1, r1⟩
  rw [hU] at hui1 hui2
  cases r1 with
  | error e => exact ⟨hui1, fun u h => nomatch h⟩
  | ok ur =>
    rcases ur with ⟨username_end, remaining⟩
    have hrem : tabFree remaining := hui2 (username_end, remaining) rfl
    dsimp only
    cases h32 : to_u32 st1.serialization.length with
    | error e => exact ⟨hui1, fun u h => nomatch h⟩
    | ok host_start =>
      dsimp only
      cases hHP : parse_host_and_port st1.serialization scheme_end scheme_type context
          remaining with
      | error e => exact ⟨hui1, fun u h => nomatch h⟩
      | ok hr =>
        obtain ⟨hser2, hrem2⟩ := parse_host_and_port_tabFree st1.serialization scheme_end
          scheme_type context remaining hui1 hrem hr hHP
        rcases hr with ⟨ser2, host_end, host, port, remaining2⟩
        dsimp only
        split
        · exact ⟨hser2, fun u h => nomatch h⟩
        · cases h32b : to_u32 ser2.length with
          | error e => exact ⟨hser2, fun u h => nomatch h⟩
          | ok path_start =>
            obtain ⟨hps1, hps2⟩ := parse_path_start_tabFree scheme_type context true
              { st1 with serialization := ser2 } remaining2 hser2 hrem2
            rcases hPS : parse_path_start scheme_type context true
                { st1 with serialization := ser2 } remaining2 with ⟨st3, hh3, remaining3⟩
            rw [hPS] at hps1 hps2
            exact with_query_and_fragment_tabFree scheme_type context override scheme_end
              username_end host_start host_end host port path_start st3 remaining3 hps1 hps2

theorem charToLower_tabFree (c : Char) (hc : ascii_tab_or_new_line c = false) :
    ascii_tab_or_new_line (charToLower c) = false := by
  unfold charToLower
  split
  · rename_i hup
    have h1 : (65 : Nat) ≤ c.toNat := hup.1
    have h2 : c.toNat ≤ 90 := hup.2
    exact tab_ofNat_false _ (by omega) (by omega) (by omega) (by omega)
  · exact hc

theorem parseSchemeLoop_tabFree (context : Context) :
    ∀ (input acc : List Char), tabFree acc → tabFree input →
      tabFree (parseSchemeLoop context acc input).2
      ∧ ∀ rem, (parseSchemeLoop context acc input).1 = some rem → tabFree rem := by
  intro input
  induction input with
  | nil =>
    intro acc hacc _
    simp only [parseSchemeLoop]
    split
    · refine ⟨hacc, fun rem h => ?_⟩
      injection h with h
      subst h
      exact tabFree_nil
    · exact ⟨tabFree_nil, fun rem h => nomatch h⟩
  | cons c rest ih =>
    intro acc hacc hin
    have hc : ascii_tab_or_new_line c = false := hin c (List.mem_cons_self c rest)
    have hrest : tabFree rest := fun x hx => hin x (List.mem_cons_of_mem c hx)
    simp only [parseSchemeLoop]
    split
    · exact ih (acc ++ [c]) (tabFree_append hacc (tabFree_singleton hc)) hrest
    · split
      · exact ih (acc ++ [charToLower c])
          (tabFree_append hacc (tabFree_singleton (charToLower_tabFree c hc))) hrest
      · split
        · refine ⟨hacc, fun rem h => ?_⟩
          injection h with h
          subst h
          exact hrest
        · exact ⟨tabFree_nil, fun rem h => nomatch h⟩

theorem parse_scheme_tabFree (context : Context) (input : List Char)
    (hin : tabFree input) :
    tabFree (parse_scheme context input).2
    ∧ ∀ rem, (parse_scheme context input).1 = some rem → tabFree rem := by
  unfold parse_scheme
  cases input with
  | nil => exact ⟨tabFree_nil, fun rem h => nomatch h⟩
  | cons c rest =>
    dsimp only
    split
    · exact parseSchemeLoop_tabFree context (c :: rest) [] tabFree_nil hin
    · exact ⟨tabFree_nil, fun rem h => nomatch h⟩

theorem parse_non_special_tabFree (scheme_type : SchemeType) (context : Context)
    (override : Option (List Char → List (Fin 256))) (scheme_end : Nat) (st : Pst)
    (input : List Char) (hst : tabFree st.serialization) (hin : tabFree input) :
    tabFree (parse_non_special scheme_type context override scheme_end st
      input).1.serialization
    ∧ ∀ u, (parse_non_special scheme_type context override scheme_end st input).2
        = Except.ok u → tabFree u.serialization := by
  unfold parse_non_special
  split
  · exact after_double_slash_tabFree scheme_type context override scheme_end st
      (input.drop 2) hst (tabFree_drop _ hin)
  · cases h32 : to_u32 st.serialization.length with
    | error e => exact ⟨hst, fun u h => nomatch h⟩
    | ok path_start =>
      dsimp only
      cases hh : input.head? with
      | some c =>
        dsimp only
        split
        · obtain ⟨hp1, hp2⟩ := parse_path_tabFree scheme_type context false path_start
            (st.push ['/']) input.tail
            (tabFree_append hst (tabFree_singleton (by decide))) (tabFree_tail hin)
          rcases hP : parse_path scheme_type context false path_start (st.push ['/'])
              input.tail with ⟨st1, b1, rem1⟩
          rw [hP] at hp1 hp2
          exact with_query_and_fragment_tabFree scheme_type context override scheme_end
            path_start path_start path_start HostInternal.None none path_start st1 rem1
            hp1 hp2
        · obtain ⟨hc1, hc2⟩ := parse_cannot_be_a_base_path_tabFree context input st hst hin
          rcases hC : parse_cannot_be_a_base_path context st input with ⟨st1, rem1⟩
          rw [hC] at hc1 hc2
          exact with_query_and_fragment_tabFree scheme_type context override scheme_end
            path_start path_start path_start HostInternal.None none path_start st1 rem1
            hc1 hc2
      | none =>
        obtain ⟨hc1, hc2⟩ := parse_cannot_be_a_base_path_tabFree context input st hst hin
        rcases hC : parse_cannot_be_a_base_path context st input with ⟨st1, rem1⟩
        rw [hC] at hc1 hc2
        exact with_query_and_fragment_tabFree scheme_type context override scheme_end
          path_start path_start path_start HostInternal.None none path_start st1 rem1
          hc1 hc2

theorem parse_relative_tabFree (scheme_type : SchemeType) (context : Context)
    (override : Option (List Char → List (Fin 256))) (base : Url) (st : Pst)
    (input : List Char) (hbase : tabFree base.serialization)
    (hst : tabFree st.serialization) (hin : tabFree input) :
    tabFree (parse_relative scheme_type context override base st input).1.serialization
    ∧ ∀ u, (parse_relative scheme_type context override base st input).2 = Except.ok u →
        tabFree u.serialization := by
  unfold parse_relative
  cases hh : input.head? with
  | none =>
    dsimp only
    refine ⟨tabFree_append hst (tabFree_before_fragment hbase), fun u h => ?_⟩
    injection h with h
    subst h
    exact tabFree_append hst (tabFree_before_fragment hbase)
  | some c =>
    dsimp only
    split
    · have hqf := parse_query_and_fragment_tabFree scheme_type base.scheme_end context
        override (st.push base.before_query) input
        (tabFree_append hst (tabFree_before_query hbase)) hin
      rcases hQ : parse_query_and_fragment scheme_type base.scheme_end context override
          (st.push base.before_query) input with ⟨st2, r⟩
      rw [hQ] at hqf
      cases r with
      | error e => exact ⟨hqf, fun u h => nomatch h⟩
      | ok qf =>
        rcases qf with ⟨q, f⟩
        dsimp only
        refine ⟨hqf, fun u h => ?_⟩
        injection h with h
        subst h
        exact hqf
    · split
      · exact fragment_only_tabFree base st input hbase hst hin
      · split
        · split
          · have hst1 : tabFree ((st.logIf SyntaxViolation.ExpectedDoubleSlash
                (decide (input.takeWhile (fun x => x = '/' ∨ x = '\\') ≠ ['/', '/']))).push
                  (base.serialization.take (base.scheme_end + 1))).serialization :=
              tabFree_append (tabFree_logIf _ _ hst) (tabFree_take _ hbase)
            split
            · exact after_double_slash_tabFree scheme_type context override base.scheme_end
                _ (input.drop 2) hst1 (tabFree_drop _ hin)
            · exact after_double_slash_tabFree scheme_type context override base.scheme_end
                _ (input.dropWhile (fun x => x = '/' ∨ x = '\\')) hst1
                (tabFree_dropWhile _ hin)
          · obtain ⟨hp1, hp2⟩ := parse_path_tabFree scheme_type context true
              base.path_start
              ((st.push (base.serialization.take base.path_start)).push ['/']) input.tail
              (tabFree_append (tabFree_append hst (tabFree_take _ hbase))
                (tabFree_singleton (by decide)))
              (tabFree_tail hin)
            rcases hP : parse_path scheme_type context true base.path_start
                ((st.push (base.serialization.take base.path_start)).push ['/'])
                input.tail with ⟨st2, b2, rem2⟩
            rw [hP] at hp1 hp2
            exact with_query_and_fragment_tabFree scheme_type context override
              base.scheme_end base.username_end base.host_start base.host_end base.host
              base.port base.path_start st2 rem2 hp1 hp2
        · have key : ∀ st3 : Pst, tabFree st3.serialization →
              tabFree (with_query_and_fragment scheme_type context override base.scheme_end
                base.username_end base.host_start base.host_end base.host base.port
                base.path_start
                (parse_path scheme_type context true base.path_start st3 input).1
                (parse_path scheme_type context true base.path_start st3
                  input).2.2).1.serialization
              ∧ ∀ u, (with_query_and_fragment scheme_type context override base.scheme_end
                  base.username_end base.host_start base.host_end base.host base.port
                  base.path_start
                  (parse_path scheme_type context true base.path_start st3 input).1
                  (parse_path scheme_type context true base.path_start st3 input).2.2).2
                  = Except.ok u → tabFree u.serialization := by
            intro st3 hst3
            obtain ⟨hp1, hp2⟩ := parse_path_tabFree scheme_type context true base.path_start
              st3 input hst3 hin
            exact with_query_and_fragment_tabFree scheme_type context override
              base.scheme_end base.username_end base.host_start base.host_end base.host
              base.port base.path_start _ _ hp1 hp2
          refine key _ ?_
          have hst2 : tabFree (pop_path scheme_type base.path_start
              ((st.push base.before_query).serialization)) :=
            tabFree_pop_path _ _ (tabFree_append hst (tabFree_before_query hbase))
          split
          · exact tabFree_append hst2 (tabFree_singleton (by decide))
          · exact hst2

theorem tabFree_first_path_segment {u : Url} (hu : tabFree u.serialization) :
    tabFree u.first_path_segment :=
  tabFree_takeWhile _ (tabFree_drop _ (tabFree_take _ hu))

theorem tabFree_host_str {u : Url} (hu : tabFree u.serialization) :
    ∀ s, u.host_str = some s → tabFree s := by
  unfold Url.host_str
  intro s h
  split at h
  · exact nomatch h
  · injection h with h
    subst h
    exact tabFree_drop _ (tabFree_take _ hu)

theorem parse_file_tabFree (scheme_type : SchemeType) (context : Context)
    (override : Option (List Char → List (Fin 256))) (base_file_url : Option Url)
    (st : Pst) (input : List Char)
    (hbase : ∀ b, base_file_url = some b → tabFree b.serialization)
    (hst : tabFree st.serialization) (hin : tabFree input) :
    tabFree (parse_file scheme_type context override base_file_url st
      input).1.serialization
    ∧ ∀ u, (parse_file scheme_type context override base_file_url st input).2
        = Except.ok u → tabFree u.serialization := by
  have keyQF : ∀ (stt : SchemeType) (stE : Pst) (remaining2 : List Char)
      (host_end : Nat) (host : HostInternal),
      tabFree stE.serialization → tabFree remaining2 →
      tabFree (match parse_query_and_fragment stt 4 context override stE remaining2 with
        | (stF, Except.error e) => ((stF, Except.error e) : Pst × Except ParseError Url)
        | (stF, Except.ok (query_start, fragment_start)) =>
          (stF, Except.ok {
            serialization := stF.serialization, scheme_end := 4, username_end := 7,
            host_start := 7, host_end := host_end, host := host, port := none,
            path_start := host_end, query_start := query_start,
            fragment_start := fragment_start })).1.serialization
      ∧ ∀ u, (match parse_query_and_fragment stt 4 context override stE remaining2 with
          | (stF, Except.error e) => ((stF, Except.error e) : Pst × Except ParseError Url)
          | (stF, Except.ok (query_start, fragment_start)) =>
            (stF, Except.ok {
              serialization := stF.serialization, scheme_end := 4, username_end := 7,
              host_start := 7, host_end := host_end, host := host, port := none,
              path_start := host_end, query_start := query_start,
              fragment_start := fragment_start })).2 = Except.ok u →
          tabFree u.serialization := by
    intro stt stE remaining2 host_end host hE hrem
    have hqf := parse_query_and_fragment_tabFree stt 4 context override stE remaining2
      hE hrem
    rcases hQ : parse_query_and_fragment stt 4 context override stE remaining2 with ⟨stF, r⟩
    rw [hQ] at hqf
    cases r with
    | error e => exact ⟨hqf, fun u h => nomatch h⟩
    | ok qf =>
      rcases qf with ⟨q, f⟩
      dsimp only
      refine ⟨hqf, fun u h => ?_⟩
      injection h with h
      subst h
      exact hqf
  unfold parse_file
  dsimp only
  split
  · split
    · -- file host state
      generalize hB : ((st.logIf SyntaxViolation.Backslash
          (decide (input.head? = some '\\'))).logIf SyntaxViolation.Backslash
          (decide (input.tail.head? = some '\\'))).push ['f','i','l','e',':','/','/'] = stB
      have hstB : tabFree stB.serialization := by
        rw [← hB]
        exact tabFree_append (tabFree_logIf _ _ (tabFree_logIf _ _ hst))
          (tabFree_of_all (by decide))
      obtain ⟨hfh1, hfh2⟩ := parse_file_host_tabFree stB input.tail.tail hstB
        (tabFree_tail (tabFree_tail hin))
      rcases hFH : parse_file_host stB input.tail.tail with ⟨stC, hh0, host0, remaining⟩
      rw [hFH] at hfh1 hfh2
      dsimp only
      cases h32 : to_u32 stC.serialization.length with
      | error e => exact ⟨hfh1, fun u h => nomatch h⟩
      | ok host_end0 =>
        dsimp only
        generalize hMid : (if hh0 = true then
            parse_path_start SchemeType.File context (decide (host0 ≠ HostInternal.None))
              stC remaining
          else
            parse_path SchemeType.File context (decide (host0 ≠ HostInternal.None))
              stC.serialization.length (stC.push ['/']) remaining) = mid
        have hmid : tabFree mid.1.serialization ∧ tabFree mid.2.2 := by
          rw [← hMid]
          split
          · exact parse_path_start_tabFree _ _ _ _ _ hfh1 hfh2
          · exact parse_path_tabFree _ _ _ _ _ _
              (tabFree_append hfh1 (tabFree_singleton (by decide))) hfh2
        generalize hFix : (if mid.2.1 = false then
            ({ mid.1 with serialization :=
                mid.1.serialization.take 7 ++ mid.1.serialization.drop host_end0 },
              7, HostInternal.None)
          else (mid.1, host_end0, host0)) = fix
        have hfix : tabFree fix.1.serialization := by
          rw [← hFix]
          split
          · exact tabFree_append (tabFree_take _ hmid.1) (tabFree_drop _ hmid.1)
          · exact hmid.1
        exact keyQF scheme_type fix.1 mid.2.2 fix.2.1 fix.2.2 hfix hmid.2
    · -- file slash state
      have hppi : tabFree (match input.head? with
          | some c => if c = '/' ∨ c = '\\' ∨ c = '?' ∨ c = '#' then input else input.tail
          | none => input.tail) := by
        cases hhh : input.head? with
        | some c =>
          dsimp only
          split
          · exact hin
          · exact tabFree_tail hin
        | none => exact tabFree_tail hin
      generalize hB : (st.logIf SyntaxViolation.Backslash
          (decide (input.head? = some '\\'))).push ['f','i','l','e',':','/','/'] = stB
      have hstB : tabFree stB.serialization := by
        rw [← hB]
        exact tabFree_append (tabFree_logIf _ _ hst) (tabFree_of_all (by decide))
      generalize hTrip : (if starts_with_windows_drive_letter_segment input.tail = false then
          match base_file_url with
          | some base =>
            if is_normalized_windows_drive_letter base.first_path_segment = true then
              ((stB.push ['/']).push base.first_path_segment, 7, HostInternal.None)
            else
              match base.host_str with
              | some host_str =>
                ((stB.push host_str), (stB.push host_str).serialization.length, base.host)
              | none => (stB, 7, HostInternal.None)
          | none => (stB, 7, HostInternal.None)
        else (stB, 7, HostInternal.None)) = trip
      have htrip : tabFree trip.1.serialization := by
        rw [← hTrip]
        split
        · cases base_file_url with
          | some base =>
            have hb := hbase base rfl
            dsimp only
            split
            · exact tabFree_append (tabFree_append hstB (tabFree_singleton (by decide)))
                (tabFree_first_path_segment hb)
            · cases hhs : base.host_str with
              | some host_str =>
                exact tabFree_append hstB (tabFree_host_str hb host_str hhs)
              | none => exact hstB
          | none => exact hstB
        · exact hstB
      refine keyQF scheme_type _ _ _ _ ?_ ?_
      · exact (parse_path_tabFree SchemeType.File context false trip.2.1 trip.1 _
          htrip hppi).1
      · exact (parse_path_tabFree SchemeType.File context false trip.2.1 trip.1 _
          htrip hppi).2
  · -- no leading slash
    cases base_file_url with
    | some base =>
      have hb := hbase base rfl
      cases hhc : input.head? with
      | none =>
        dsimp only
        refine ⟨tabFree_append hst (tabFree_before_fragment hb), fun u h => ?_⟩
        injection h with h
        subst h
        exact tabFree_append hst (tabFree_before_fragment hb)
      | some c =>
        dsimp only
        split
        · -- query
          have hqf := parse_query_and_fragment_tabFree scheme_type base.scheme_end context
            override (st.push base.before_query) input
            (tabFree_append hst (tabFree_before_query hb)) hin
          rcases hQ : parse_query_and_fragment scheme_type base.scheme_end context override
              (st.push base.before_query) input with ⟨st2, r⟩
          rw [hQ] at hqf
          cases r with
          | error e => exact ⟨hqf, fun u h => nomatch h⟩
          | ok qf =>
            rcases qf with ⟨q, f⟩
            dsimp only
            refine ⟨hqf, fun u h => ?_⟩
            injection h with h
            subst h
            exact hqf
        · split
          · exact fragment_only_tabFree base st input hb hst hin
          · split
            · -- base path, shorten
              have hST2 : tabFree (shorten_path SchemeType.File base.path_start
                  (st.push base.before_query).serialization) :=
                tabFree_shorten_path _ _ (tabFree_append hst (tabFree_before_query hb))
              obtain ⟨hp1, hp2⟩ := parse_path_tabFree SchemeType.File context true
                base.path_start
                { serialization := shorten_path SchemeType.File base.path_start
                    (st.push base.before_query).serialization,
                  violations := (st.push base.before_query).violations } input hST2 hin
              exact with_query_and_fragment_tabFree SchemeType.File context override
                base.scheme_end base.username_end base.host_start base.host_end base.host
                base.port base.path_start _ _ hp1 hp2
            · refine keyQF SchemeType.File _ _ _ _ ?_ ?_
              · exact (parse_path_tabFree SchemeType.File context false 7
                  (st.push ['f','i','l','e',':','/','/','/']) input
                  (tabFree_append hst (tabFree_of_all (by decide))) hin).1
              · exact (parse_path_tabFree SchemeType.File context false 7
                  (st.push ['f','i','l','e',':','/','/','/']) input
                  (tabFree_append hst (tabFree_of_all (by decide))) hin).2
    | none =>
      refine keyQF SchemeType.File _ _ _ _ ?_ ?_
      · exact (parse_path_tabFree SchemeType.File context false 7
          (st.push ['f','i','l','e',':','/','/','/']) input
          (tabFree_append hst (tabFree_of_all (by decide))) hin).1
      · exact (parse_path_tabFree SchemeType.File context false 7
          (st.push ['f','i','l','e',':','/','/','/']) input
          (tabFree_append hst (tabFree_of_all (by decide))) hin).2

theorem parse_with_scheme_tabFree (context : Context)
    (override : Option (List Char → List (Fin 256))) (base : Option Url) (st : Pst)
    (input : List Char) (hbase : ∀ b, base = some b → tabFree b.serialization)
    (hst : tabFree st.serialization) (hin : tabFree input) :
    tabFree (parse_with_scheme context override base st input).1.serialization
    ∧ ∀ u, (parse_with_scheme context override base st input).2 = Except.ok u →
        tabFree u.serialization := by
  unfold parse_with_scheme
  cases h32 : to_u32 st.serialization.length with
  | error e => exact ⟨hst, fun u h => nomatch h⟩
  | ok scheme_end =>
    dsimp only
    cases hty : schemeTypeOf st.serialization with
    | File =>
      dsimp only
      refine parse_file_tabFree SchemeType.File context override _ _ input ?_ tabFree_nil hin
      intro b h
      cases base with
      | none => exact nomatch h
      | some b0 =>
        dsimp only at h
        split at h
        · injection h with h
          subst h
          exact hbase b0 rfl
        · exact nomatch h
    | SpecialNotFile =>
      dsimp only
      cases base with
      | none =>
        dsimp only
        exact after_double_slash_tabFree SchemeType.SpecialNotFile context override
          scheme_end _ _
          (tabFree_logIf _ _ (tabFree_append hst (tabFree_singleton (by decide))))
          (tabFree_dropWhile _ hin)
      | some b =>
        dsimp only
        by_cases hrel : (input.takeWhile (fun x => x = '/' ∨ x = '\\')).length < 2
            ∧ b.scheme = (st.push [':']).serialization.take scheme_end
        · rw [if_pos hrel]
          exact parse_relative_tabFree SchemeType.SpecialNotFile context override b
            { serialization := ([] : List Char),
              violations := (st.push [':']).violations } input (hbase b rfl)
            tabFree_nil hin
        · rw [if_neg hrel]
          exact after_double_slash_tabFree SchemeType.SpecialNotFile context override
            scheme_end _ _
            (tabFree_logIf _ _ (tabFree_append hst (tabFree_singleton (by decide))))
            (tabFree_dropWhile _ hin)
    | NotSpecial =>
      exact parse_non_special_tabFree SchemeType.NotSpecial context override scheme_end _
        input (tabFree_append hst (tabFree_singleton (by decide))) hin

/-- **C2**: for every input string, optional base URL, parsing context and query
encoding override, whenever `parse_url` returns a URL record successfully the
record's serialization contains no ASCII tab (0x09), LF (0x0A) or CR (0x0D)
character, even when such characters occur in the input — under the invariant
hypothesis that the supplied base URL's serialization (produced by the same
parser) is itself free of them; and whenever the input still contains such a
character after the C0/space trimming, the `TabOrNewlineIgnored` violation is
reported to the (collecting) observer. -/
theorem C2_no_tab_in_serialization (context : Context)
    (override : Option (List Char → List (Fin 256))) (base : Option Url)
    (raw : List Char) (hbase : ∀ b, base = some b → tabFree b.serialization) :
    (∀ url, (parse_url context override base raw).1 = Except.ok url →
        tabFree url.serialization)
    ∧ ((∃ c ∈ trimMatches c0_control_or_space raw, ascii_tab_or_new_line c = true) →
        SyntaxViolation.TabOrNewlineIgnored ∈ (parse_url context override base raw).2) := by
  have hin : tabFree (stripTabNl (trimMatches c0_control_or_space raw)) :=
    tabFree_stripTabNl _
  constructor
  · intro url hurl
    unfold parse_url inputNewTrimViols at hurl
    dsimp only at hurl
    obtain ⟨hser, hremfn⟩ := parse_scheme_tabFree context
      (stripTabNl (trimMatches c0_control_or_space raw)) hin
    rcases hPS : parse_scheme context (stripTabNl (trimMatches c0_control_or_space raw))
      with ⟨r, ser⟩
    rw [hPS] at hurl hser hremfn
    cases r with
    | some remaining =>
      dsimp only at hurl
      exact (parse_with_scheme_tabFree context override base
        { serialization := ser, violations := [] } remaining hbase hser
        (hremfn remaining rfl)).2 url hurl
    | none =>
      dsimp only at hurl
      cases base with
      | none => exact nomatch hurl
      | some b =>
        have hb := hbase b rfl
        dsimp only at hurl
        split at hurl
        · exact (fragment_only_tabFree b { serialization := [], violations := [] }
            (stripTabNl (trimMatches c0_control_or_space raw)) hb tabFree_nil hin).2
            url hurl
        · split at hurl
          · exact nomatch hurl
          · split at hurl
            · exact (parse_file_tabFree (schemeTypeOf b.scheme) context override (some b)
                { serialization := [], violations := [] }
                (stripTabNl (trimMatches c0_control_or_space raw))
                (fun bb hbb => by injection hbb with hbb; subst hbb; exact hb)
                tabFree_nil hin).2 url hurl
            · exact (parse_relative_tabFree (schemeTypeOf b.scheme) context override b
                { serialization := [], violations := [] }
                (stripTabNl (trimMatches c0_control_or_space raw)) hb tabFree_nil hin).2
                url hurl
  · rintro ⟨c, hcm, hct⟩
    have hany : (trimMatches c0_control_or_space raw).any ascii_tab_or_new_line = true :=
      List.any_eq_true.2 ⟨c, hcm, hct⟩
    unfold parse_url inputNewTrimViols
    dsimp only
    rw [if_pos hany]
    exact List.mem_append.2 (Or.inl (List.mem_append.2 (Or.inr
      (List.mem_singleton.2 rfl))))

theorem C2_no_tab_in_serialization_witness :
    resultTabFree (parse_url Context.UrlParser none none
      ['h','t','t','p',':','/','/','a','\t','b','/','c']).1
    ∧ SyntaxViolation.TabOrNewlineIgnored
        ∈ (parse_url Context.UrlParser none none
            ['h','t','t','p',':','/','/','a','\t','b','/','c']).2 := by
  have h := C2_no_tab_in_serialization Context.UrlParser none none
    ['h','t','t','p',':','/','/','a','\t','b','/','c'] (fun b hb => nomatch hb)
  constructor
  · cases heval : (parse_url Context.UrlParser none none
        ['h','t','t','p',':','/','/','a','\t','b','/','c']).1 with
    | ok u =>
      exact h.1 u heval
    | error e =>
      exact trivial
  · exact h.2 ⟨'\t', by decide, by decide⟩


end RustUrl
